import Mathlib

/-!
Verification of the GA-based pilot-branch selection engine of this repository
(`processing/scripts/pilot_branch_selector.py`, class `PilotBranchSelector`).

Modelling conventions:
* Python/numpy floating point values flowing through the fitness computation are
  modelled by `PF`: either an exact finite rational, `nan`, or one of the two
  infinities.  Arithmetic on `PF` follows IEEE-754 semantics for these cases
  (`nan` is absorbing, `x / 0` gives `nan` or a signed infinity, comparisons
  against `nan` are false); finite arithmetic is exact rational arithmetic.
  `float('-inf')` from `evaluate_fitness` is `PF.neginf`.
* `geopy.distance.geodesic` (an external library) is a parameter
  `dist : Branch → Branch → ℚ` of every definition that measures distances.
* `np.std` computes an irrational square root, so it is likewise a parameter
  `std : List ℚ → ℚ`; `np.mean` is exact and is modelled directly (`npMean`),
  returning `nan` on the empty list as numpy does.
* The random sources (`random.sample`, `random.randint`, `random.random`,
  `random.choice`) are explicit input streams; `random.randint(a, b)` outcomes
  are modelled as `a + (stream value % (b - a + 1))`, which ranges over exactly
  the outcomes the library call can produce.
* A Python exception that aborts the run (`IndexError` from
  `random.choice([])`, `IndexError` from `parents[i+1]`) is modelled by an
  `Option` result being `none`.  The `ValueError` raised by
  `initialize_population` is caught by `find_optimal_combination`, which then
  returns the empty list; this is modelled directly.
* Functions are only ever applied to nonempty individuals (`num_branches ≥ 1`)
  by the surrounding program; on `[]` the Python code would raise from
  `max()` of an empty `Counter`, while the model returns a harmless value.
  Every theorem below that needs it carries an explicit nonemptiness
  hypothesis.
-/

/-- Model of the Python/numpy floating point values produced by the fitness
computation: an exact finite rational, `nan`, or a signed infinity. -/
inductive PF where
  | nan : PF
  | neginf : PF
  | posinf : PF
  | fin : ℚ → PF
deriving DecidableEq, Repr

/-- IEEE addition on `PF` (finite part exact). -/
def pfAdd : PF → PF → PF
  | PF.nan, _ => PF.nan
  | _, PF.nan => PF.nan
  | PF.posinf, PF.neginf => PF.nan
  | PF.neginf, PF.posinf => PF.nan
  | PF.posinf, _ => PF.posinf
  | _, PF.posinf => PF.posinf
  | PF.neginf, _ => PF.neginf
  | _, PF.neginf => PF.neginf
  | PF.fin a, PF.fin b => PF.fin (a + b)

/-- IEEE negation on `PF`. -/
def pfNeg : PF → PF
  | PF.nan => PF.nan
  | PF.posinf => PF.neginf
  | PF.neginf => PF.posinf
  | PF.fin a => PF.fin (-a)

/-- IEEE subtraction on `PF`. -/
def pfSub (x y : PF) : PF := pfAdd x (pfNeg y)

/-- IEEE multiplication on `PF` (finite part exact). -/
def pfMul : PF → PF → PF
  | PF.nan, _ => PF.nan
  | _, PF.nan => PF.nan
  | PF.fin a, PF.fin b => PF.fin (a * b)
  | PF.fin a, PF.posinf => if 0 < a then PF.posinf else if a < 0 then PF.neginf else PF.nan
  | PF.fin a, PF.neginf => if 0 < a then PF.neginf else if a < 0 then PF.posinf else PF.nan
  | PF.posinf, PF.fin b => if 0 < b then PF.posinf else if b < 0 then PF.neginf else PF.nan
  | PF.neginf, PF.fin b => if 0 < b then PF.neginf else if b < 0 then PF.posinf else PF.nan
  | PF.posinf, PF.posinf => PF.posinf
  | PF.posinf, PF.neginf => PF.neginf
  | PF.neginf, PF.posinf => PF.neginf
  | PF.neginf, PF.neginf => PF.posinf

/-- IEEE division on `PF` (finite part exact; division by zero produces `nan`
for `0 / 0` and a signed infinity otherwise, as numpy float64 does). -/
def pfDiv : PF → PF → PF
  | PF.nan, _ => PF.nan
  | _, PF.nan => PF.nan
  | PF.fin a, PF.fin b =>
      if b = 0 then (if a = 0 then PF.nan else if 0 < a then PF.posinf else PF.neginf)
      else PF.fin (a / b)
  | PF.fin _, PF.posinf => PF.fin 0
  | PF.fin _, PF.neginf => PF.fin 0
  | PF.posinf, PF.fin b => if 0 ≤ b then PF.posinf else PF.neginf
  | PF.neginf, PF.fin b => if 0 ≤ b then PF.neginf else PF.posinf
  | PF.posinf, PF.posinf => PF.nan
  | PF.posinf, PF.neginf => PF.nan
  | PF.neginf, PF.posinf => PF.nan
  | PF.neginf, PF.neginf => PF.nan

/-- The Python `<` comparison on floats: every comparison involving `nan`
is false; otherwise the usual order with `-inf` at the bottom. -/
def pfLtb : PF → PF → Bool
  | PF.nan, _ => false
  | _, PF.nan => false
  | PF.neginf, PF.neginf => false
  | PF.neginf, _ => true
  | PF.posinf, _ => false
  | PF.fin _, PF.neginf => false
  | PF.fin _, PF.posinf => true
  | PF.fin a, PF.fin b => decide (a < b)

/-- `np.mean` of a list of exact values: `nan` on the empty list, the exact
arithmetic mean otherwise. -/
def npMean (xs : List ℚ) : PF :=
  if xs.isEmpty then PF.nan else PF.fin (xs.sum / (xs.length : ℚ))

/-- Candidate branch record (`@dataclass Branch` in the source).  Equality is
Python dataclass equality: all fields compared. -/
structure Branch where
  branch_id : ℕ
  branch_name : String
  branch_type : String
  city : String
  latitude : ℚ
  longitude : ℚ
  inner_population : ℚ
  outer_population : ℚ
  income_per_capita : ℚ
  total_score : ℚ
deriving DecidableEq, Repr

/-- The possible results of `get_region`: the five configured region names
plus the sentinel `'other'`. -/
inductive Region where
  | north : Region
  | east : Region
  | south : Region
  | west : Region
  | central : Region
  | other : Region
deriving DecidableEq, Fintype, Repr

/-- `PilotBranchSelector.get_region`: first configured bounding box (in the
insertion order of `self.regions`) containing the branch coordinates, with
inclusive bounds on both ends; `other` when none matches. -/
def get_region (b : Branch) : Region :=
  if 47.5 ≤ b.latitude ∧ b.latitude ≤ 48 ∧ 8 ≤ b.longitude ∧ b.longitude ≤ 9 then
    Region.north
  else if 47 ≤ b.latitude ∧ b.latitude ≤ 47.5 ∧ 9 ≤ b.longitude ∧ b.longitude ≤ 10 then
    Region.east
  else if 46 ≤ b.latitude ∧ b.latitude ≤ 47 ∧ 8 ≤ b.longitude ∧ b.longitude ≤ 9 then
    Region.south
  else if 47 ≤ b.latitude ∧ b.latitude ≤ 47.5 ∧ 7 ≤ b.longitude ∧ b.longitude ≤ 8 then
    Region.west
  else if 46.5 ≤ b.latitude ∧ b.latitude ≤ 47 ∧ 7 ≤ b.longitude ∧ b.longitude ≤ 8 then
    Region.central
  else
    Region.other

/-- `PilotBranchSelector.is_valid_combination`: every ordered pair `(i, j)`
with `i < j` is at distance at least `mind` (the configured
`min_distance_km`). -/
def is_valid_combination (dist : Branch → Branch → ℚ) (mind : ℚ) : List Branch → Bool
  | [] => true
  | b :: rest =>
      (rest.all fun b2 => !(decide (dist b b2 < mind))) &&
        is_valid_combination dist mind rest

/-- `PilotBranchSelector.calculate_coverage_score`: running total of
`inner_population + outer_population * 0.5` over the members, in source
order. -/
def calculate_coverage_score : List Branch → ℚ
  | [] => 0
  | b :: rest => (b.inner_population + b.outer_population * 0.5) + calculate_coverage_score rest

/-- The largest multiplicity in `Counter(branch types)`;
`max(type_counts.values())` in the source (0 on the empty list, which the
source never passes). -/
def maxTypeCount (ts : List String) : ℕ :=
  (ts.dedup.map fun t => ts.count t).foldl max 0

/-- Type-diversity sub-score: `1 - max(type_counts.values()) / len(members)`. -/
def type_diversity (l : List Branch) : ℚ :=
  1 - (maxTypeCount (l.map Branch.branch_type) : ℚ) / (l.length : ℚ)

/-- Region-diversity sub-score:
`len(set(get_region(b) for b in members)) / len(self.regions)`; the selector
configures exactly 5 regions. -/
def region_diversity (l : List Branch) : ℚ :=
  ((l.map get_region).dedup.length : ℚ) / 5

/-- Income-diversity sub-score: `1 - np.std(incomes) / np.mean(incomes)`,
with numpy float semantics for the division (so `nan` or an infinity when the
mean is zero). -/
def income_diversity (std : List ℚ → ℚ) (l : List Branch) : PF :=
  pfSub (PF.fin 1)
    (pfDiv (PF.fin (std (l.map Branch.income_per_capita)))
      (npMean (l.map Branch.income_per_capita)))

/-- `PilotBranchSelector.calculate_diversity_score`:
`(type_diversity + region_diversity + income_diversity) / 3` with float
semantics. -/
def calculate_diversity_score (std : List ℚ → ℚ) (l : List Branch) : PF :=
  pfDiv
    (pfAdd (pfAdd (PF.fin (type_diversity l)) (PF.fin (region_diversity l)))
      (income_diversity std l))
    (PF.fin 3)

/-- `PilotBranchSelector.calculate_performance_score`: `np.mean` of the
members' `total_score`. -/
def calculate_performance_score (l : List Branch) : PF :=
  npMean (l.map Branch.total_score)

/-- `PilotBranchSelector.evaluate_fitness`: `float('-inf')` for an invalid
combination, otherwise
`0.4 * coverage_score + 0.3 * diversity_score + 0.3 * performance_score`
evaluated left to right with float semantics. -/
def evaluate_fitness (dist : Branch → Branch → ℚ) (std : List ℚ → ℚ) (mind : ℚ)
    (l : List Branch) : PF :=
  if is_valid_combination dist mind l then
    pfAdd
      (pfAdd (pfMul (PF.fin 0.4) (PF.fin (calculate_coverage_score l)))
        (pfMul (PF.fin 0.3) (calculate_diversity_score std l)))
      (pfMul (PF.fin 0.3) (calculate_performance_score l))
  else PF.neginf

/-- The sampling loop of `PilotBranchSelector.initialize_population`:
`while len(population) < population_size and attempts < max_attempts`.
`draw a` is the outcome of `random.sample(all_branches, num_branches)` on
attempt number `a`; `fuel` is `max_attempts - attempts`. -/
def initLoop (valid : List Branch → Bool) (draw : ℕ → List Branch) (popSize : ℕ) :
    ℕ → ℕ → List (List Branch) → List (List Branch)
  | 0, _, pop => pop
  | fuel + 1, attempts, pop =>
      if pop.length < popSize then
        initLoop valid draw popSize fuel (attempts + 1)
          (if valid (draw attempts) then pop ++ [draw attempts] else pop)
      else pop

/-- `PilotBranchSelector.initialize_population` with
`max_attempts = population_size * 10`; `none` models the `ValueError` raised
when fewer than `population_size` valid samples were found. -/
def initialize_population (valid : List Branch → Bool) (draw : ℕ → List Branch)
    (popSize : ℕ) : Option (List (List Branch)) :=
  let pop := initLoop valid draw popSize (popSize * 10) 0 []
  if pop.length < popSize then none else some pop

/-- One tournament of `PilotBranchSelector.select_parents`: `t` is the triple
of population positions produced by `random.sample(zip(population,
fitness_scores), 3)` (reduced mod the population size), and the winner is
`max(tournament, key=lambda x: x[1])[0]` — Python `max` keeps the earlier
element unless a later key is strictly greater. -/
def tournamentWinner (pop : List (List Branch)) (scores : List PF)
    (t : ℕ × ℕ × ℕ) : List Branch :=
  let n := pop.length
  let i1 := t.1 % n
  let i2 := t.2.1 % n
  let i3 := t.2.2 % n
  let w2 := if pfLtb (scores.getD i1 PF.nan) (scores.getD i2 PF.nan) then i2 else i1
  let w3 := if pfLtb (scores.getD w2 PF.nan) (scores.getD i3 PF.nan) then i3 else w2
  pop.getD w3 []

/-- `PilotBranchSelector.select_parents`: one tournament per population slot. -/
def select_parents (pop : List (List Branch)) (scores : List PF)
    (tsel : ℕ → ℕ × ℕ × ℕ) : List (List Branch) :=
  (List.range pop.length).map fun j => tournamentWinner pop scores (tsel j)

/-- `PilotBranchSelector.crossover` with cut point `point`
(`random.randint(1, num_branches - 1)` in the source): single-point
crossover, repair-by-fallback to the corresponding parent when a child is
invalid, and truncation of both results to `num_branches` members. -/
def crossover (valid : List Branch → Bool) (k : ℕ) (point : ℕ)
    (parent1 parent2 : List Branch) : List Branch × List Branch :=
  let child1 := parent1.take point ++
    parent2.filter fun b => !(decide (b ∈ parent1.take point))
  let child2 := parent2.take point ++
    parent1.filter fun b => !(decide (b ∈ parent2.take point))
  let child1 := if valid child1 then child1 else parent1
  let child2 := if valid child2 then child2 else parent2
  (child1.take k, child2.take k)

/-- The retry loop of `PilotBranchSelector.mutate`
(`while attempts < max_attempts` with `max_attempts = 50`).  `cands` is the
replacement pool `[b for b in all_branches if b not in individual]` (constant
across iterations since `individual` is not modified), and `pick a` selects
the outcome of `random.choice` on attempt `a`.  `none` models the
`IndexError` that `random.choice` raises on an empty pool. -/
def mutateAttempts (valid : List Branch → Bool) (idx : ℕ) (ind : List Branch)
    (cands : List Branch) (pick : ℕ → ℕ) : ℕ → ℕ → Option (List Branch)
  | 0, _ => some ind
  | fuel + 1, a =>
      match cands with
      | [] => none
      | c :: cs =>
          let nb := (c :: cs).getD (pick a % (c :: cs).length) c
          let test := ind.set idx nb
          if valid test then some test
          else mutateAttempts valid idx ind (c :: cs) pick fuel (a + 1)

/-- `PilotBranchSelector.mutate`: `coin` is the outcome of
`random.random() < 0.1`, `idx0` selects the mutated position
(`random.randint(0, len(individual) - 1)`, reduced mod the length). -/
def mutate (valid : List Branch → Bool) (all_branches : List Branch)
    (coin : Bool) (idx0 : ℕ) (pick : ℕ → ℕ) (ind : List Branch) :
    Option (List Branch) :=
  if coin then
    mutateAttempts valid (idx0 % ind.length) ind
      (all_branches.filter fun b => !(decide (b ∈ ind))) pick 50 0
  else some ind

/-- The random outcomes consumed by one generation of
`find_optimal_combination`: tournament triples, crossover cut points,
mutation coins, mutated positions and replacement choices. -/
structure GenRand where
  tsel : ℕ → ℕ × ℕ × ℕ
  cut : ℕ → ℕ
  coin : ℕ → Bool
  midx : ℕ → ℕ
  mpick : ℕ → ℕ → ℕ

/-- The breeding loop `for i in range(0, len(parents), 2)` of
`find_optimal_combination`: pairwise crossover followed by mutation of both
children.  `j` counts the pairs; an odd-length parent list makes
`parents[i+1]` raise `IndexError`, modelled by `none`. -/
def breedLoop (valid : List Branch → Bool) (k : ℕ) (all_branches : List Branch)
    (r : GenRand) : ℕ → List (List Branch) → Option (List (List Branch))
  | _, [] => some []
  | _, [_] => none
  | j, p1 :: p2 :: rest =>
      let point := 1 + r.cut j % (k - 1)
      let c := crossover valid k point p1 p2
      match mutate valid all_branches (r.coin (2 * j)) (r.midx (2 * j)) (r.mpick (2 * j)) c.1,
          mutate valid all_branches (r.coin (2 * j + 1)) (r.midx (2 * j + 1)) (r.mpick (2 * j + 1)) c.2,
          breedLoop valid k all_branches r (j + 1) rest with
      | some d1, some d2, some tail => some (d1 :: d2 :: tail)
      | _, _, _ => none

/-- One generational step of `find_optimal_combination`: tournament
selection on the current fitness scores, then pairwise crossover, then
mutation. -/
def gaStep (dist : Branch → Branch → ℚ) (std : List ℚ → ℚ) (mind : ℚ) (k : ℕ)
    (all_branches : List Branch) (r : GenRand) (pop : List (List Branch)) :
    Option (List (List Branch)) :=
  let scores := pop.map (evaluate_fitness dist std mind)
  let parents := select_parents pop scores r.tsel
  breedLoop (is_valid_combination dist mind) k all_branches r 0 parents

/-- `np.argmax` over a list of float fitness values: the index of the first
`nan` when one is present (documented numpy behaviour), otherwise the index
of the first maximum. -/
def npArgmaxAux : List PF → ℕ → ℕ → PF → ℕ
  | [], _, bi, _ => bi
  | v :: rest, i, bi, bv =>
      if pfLtb bv v then npArgmaxAux rest (i + 1) i v
      else npArgmaxAux rest (i + 1) bi bv

/-- `np.argmax` over a list of float fitness values. -/
def npArgmax (l : List PF) : ℕ :=
  match l.findIdx? (· = PF.nan) with
  | some i => i
  | none =>
      match l with
      | [] => 0
      | v :: rest => npArgmaxAux rest 1 0 v

/-- The generation loop of `find_optimal_combination`, instrumented with the
list of populations whose fitness it evaluates.  Each iteration evaluates the
population, updates the recorded best on a strict improvement
(`fitness_scores[max_fitness_idx] > best_fitness`), and breeds the next
population; a `none` from breeding (an uncaught `IndexError`) aborts the run.
The final result is `best_solution if best_solution else []`, where a `None`
best — and also an empty-list best, by Python truthiness — yields `[]`. -/
def gaRun (dist : Branch → Branch → ℚ) (std : List ℚ → ℚ) (mind : ℚ) (k : ℕ)
    (all_branches : List Branch) (grand : ℕ → GenRand) :
    ℕ → ℕ → List (List Branch) → Option (List Branch) × PF →
    List (List (List Branch)) × Option (List Branch)
  | 0, _, _, best => ([], some (best.1.getD []))
  | gensLeft + 1, g, pop, best =>
      let scores := pop.map (evaluate_fitness dist std mind)
      let idx := npArgmax scores
      let s := scores.getD idx PF.nan
      let best' := if pfLtb best.2 s then (some (pop.getD idx []), s) else best
      match gaStep dist std mind k all_branches (grand g) pop with
      | none => ([pop], none)
      | some pop' =>
          let rest := gaRun dist std mind k all_branches grand gensLeft (g + 1) pop' best'
      (pop :: rest.1, rest.2)

/-- `PilotBranchSelector.find_optimal_combination` with the population size
and generation count as parameters (the source fixes them to 100 and 50):
`none` models an uncaught exception, `some []` the failure result. -/
def find_optimal_combination (dist : Branch → Branch → ℚ) (std : List ℚ → ℚ)
    (mind : ℚ) (k : ℕ) (all_branches : List Branch) (draw : ℕ → List Branch)
    (grand : ℕ → GenRand) (popSize gens : ℕ) : Option (List Branch) :=
  match initialize_population (is_valid_combination dist mind) draw popSize with
  | none => some []
  | some pop =>
      (gaRun dist std mind k all_branches grand gens 0 pop (none, PF.neginf)).2

/-- The populations whose fitness a run of `find_optimal_combination`
evaluates, one entry per executed generation. -/
def gaPopsRun (dist : Branch → Branch → ℚ) (std : List ℚ → ℚ) (mind : ℚ)
    (k : ℕ) (all_branches : List Branch) (draw : ℕ → List Branch)
    (grand : ℕ → GenRand) (popSize gens : ℕ) : List (List (List Branch)) :=
  match initialize_population (is_valid_combination dist mind) draw popSize with
  | none => []
  | some pop =>
      (gaRun dist std mind k all_branches grand gens 0 pop (none, PF.neginf)).1

lemma pfLtb_irrefl (x : PF) : pfLtb x x = false := by
  cases x <;> simp [pfLtb]

lemma pfLtb_trans {a b c : PF} (h1 : pfLtb a b = true) (h2 : pfLtb b c = true) :
    pfLtb a c = true := by
  cases a <;> cases b <;> cases c <;> simp_all [pfLtb]
  exact h1.trans h2

lemma pfLtb_asymm {a b : PF} (h : pfLtb a b = true) : pfLtb b a = false := by
  cases a <;> cases b <;> simp_all [pfLtb]
  exact le_of_lt h

lemma pfLtb_not_trans {a b c : PF} (ha : a ≠ PF.nan) (hb : b ≠ PF.nan)
    (hc : c ≠ PF.nan) (h1 : pfLtb a b = false) (h2 : pfLtb b c = false) :
    pfLtb a c = false := by
  cases a <;> cases b <;> cases c <;> simp_all [pfLtb]
  exact h2.trans h1

lemma pfLtb_neginf_right (x : PF) : pfLtb x PF.neginf = false := by
  cases x <;> simp [pfLtb]

lemma pfLtb_nan_left (x : PF) : pfLtb PF.nan x = false := by
  cases x <;> simp [pfLtb]

lemma pfLtb_neginf_false {s : PF} (hs : s ≠ PF.nan)
    (h : pfLtb PF.neginf s = false) : s = PF.neginf := by
  cases s <;> simp_all [pfLtb]

lemma is_valid_iff_pairwise (dist : Branch → Branch → ℚ) (mind : ℚ)
    (l : List Branch) :
    is_valid_combination dist mind l = true ↔
      l.Pairwise fun a b => ¬ dist a b < mind := by
  induction l with
  | nil => simp [is_valid_combination]
  | cons b rest ih =>
      simp [is_valid_combination, List.pairwise_cons, ih, and_comm]

lemma is_valid_sublist {dist : Branch → Branch → ℚ} {mind : ℚ}
    {l l' : List Branch} (hs : l'.Sublist l)
    (h : is_valid_combination dist mind l = true) :
    is_valid_combination dist mind l' = true := by
  rw [is_valid_iff_pairwise] at h ⊢
  exact h.sublist hs

lemma getD_mem {α : Type} {l : List α} {i : ℕ} (d : α) (h : i < l.length) :
    l.getD i d ∈ l := by
  rw [List.getD_eq_getElem _ _ h]
  exact List.getElem_mem h

lemma foldl_max_init (b : ℕ) (l : List ℕ) : b ≤ l.foldl max b := by
  induction l generalizing b with
  | nil => simp
  | cons x xs ih => exact le_trans (le_max_left b x) (ih _)

lemma le_foldl_max {a b : ℕ} {l : List ℕ} (h : a ∈ l) : a ≤ l.foldl max b := by
  induction l generalizing b with
  | nil => cases h
  | cons x xs ih =>
      rcases List.mem_cons.1 h with rfl | h'
      · exact le_trans (le_max_right b a) (foldl_max_init _ _)
      · exact ih h'

lemma foldl_max_le {b c : ℕ} {l : List ℕ} (hb : b ≤ c) (h : ∀ a ∈ l, a ≤ c) :
    l.foldl max b ≤ c := by
  induction l generalizing b with
  | nil => simpa
  | cons x xs ih =>
      exact ih (max_le hb (h x (List.mem_cons_self _ _)))
        fun a ha => h a (List.mem_cons_of_mem _ ha)

lemma nodup_length_le_of_subset {α : Type} [DecidableEq α] {l1 l2 : List α}
    (h1 : l1.Nodup) (hs : ∀ a ∈ l1, a ∈ l2) : l1.length ≤ l2.length := by
  calc l1.length = l1.toFinset.card := (List.toFinset_card_of_nodup h1).symm
    _ ≤ l2.toFinset.card := Finset.card_le_card fun a ha => by
        rw [List.mem_toFinset] at ha ⊢
        exact hs a ha
    _ ≤ l2.length := l2.toFinset_card_le

lemma maxTypeCount_le (ts : List String) : maxTypeCount ts ≤ ts.length := by
  unfold maxTypeCount
  refine foldl_max_le (Nat.zero_le _) ?_
  intro a ha
  rcases List.mem_map.1 ha with ⟨t, _, rfl⟩
  exact ts.count_le_length t

lemma one_le_maxTypeCount {ts : List String} (h : ts ≠ []) :
    1 ≤ maxTypeCount ts := by
  rcases ts with _ | ⟨t, rest⟩
  · exact absurd rfl h
  · have hmem : t ∈ (t :: rest).dedup := by
      rw [List.mem_dedup]; exact List.mem_cons_self _ _
    have hc : (t :: rest).count t ∈ ((t :: rest).dedup.map
        fun x => (t :: rest).count x) := List.mem_map_of_mem _ hmem
    have h1 : 0 < (t :: rest).count t :=
      List.count_pos_iff.2 (List.mem_cons_self _ _)
    exact le_trans h1 (le_foldl_max hc)

lemma mem_pool_inj {α β : Type} {f : α → β} {pool : List α}
    (hid : (pool.map f).Nodup) {a b : α} (ha : a ∈ pool) (hb : b ∈ pool)
    (hf : f a = f b) : a = b := by
  induction pool with
  | nil => cases ha
  | cons x xs ih =>
      rw [List.map_cons, List.nodup_cons] at hid
      rcases List.mem_cons.1 ha with rfl | ha' <;>
        rcases List.mem_cons.1 hb with rfl | hb'
      · rfl
      · exact absurd (hf ▸ List.mem_map_of_mem f hb') hid.1
      · exact absurd (hf ▸ List.mem_map_of_mem f ha') hid.1
      · exact ih hid.2 ha' hb'

lemma nodup_map_of_mem_pool {α β : Type} {f : α → β} {pool l : List α}
    (hid : (pool.map f).Nodup) (hl : l.Nodup) (hsub : ∀ b ∈ l, b ∈ pool) :
    (l.map f).Nodup :=
  hl.map_on fun a ha b hb hf => mem_pool_inj hid (hsub a ha) (hsub b hb) hf

lemma exists_fresh {α : Type} {pool ind : List α}
    [DecidableEq α] (hnp : pool.Nodup) (hlt : ind.length < pool.length) :
    ∃ b ∈ pool, b ∉ ind := by
  by_contra h
  push_neg at h
  exact absurd (nodup_length_le_of_subset hnp h) (Nat.not_le.2 hlt)

lemma calculate_coverage_score_eq (l : List Branch) :
    calculate_coverage_score l =
      (l.map fun b => b.inner_population + b.outer_population * 0.5).sum := by
  induction l with
  | nil => rfl
  | cons b rest ih => simp [calculate_coverage_score, ih]

lemma crossover_fst_spec (dist : Branch → Branch → ℚ) (mind : ℚ) {k point : ℕ}
    {p q : List Branch} (hp : p.length = k) (hq : q.length = k)
    (hnp : p.Nodup) (hnq : q.Nodup)
    (hvp : is_valid_combination dist mind p = true) (hpt : point ≤ k) :
    ((crossover (is_valid_combination dist mind) k point p q).1.length = k ∧
      (crossover (is_valid_combination dist mind) k point p q).1.Nodup ∧
      is_valid_combination dist mind
        (crossover (is_valid_combination dist mind) k point p q).1 = true ∧
      (∀ b ∈ (crossover (is_valid_combination dist mind) k point p q).1,
        b ∈ p ∨ b ∈ q)) ∧
    (is_valid_combination dist mind
        (p.take point ++ q.filter fun b => !(decide (b ∈ p.take point))) = false →
      (crossover (is_valid_combination dist mind) k point p q).1 = p) := by
  have hfrontlen : (p.take point).length = point := by
    rw [List.length_take]; omega
  have hfrontnd : (p.take point).Nodup := hnp.sublist (List.take_sublist _ _)
  have hfiltnd : (q.filter fun b => !(decide (b ∈ p.take point))).Nodup :=
    hnq.filter _
  have hdisj : ∀ b ∈ p.take point,
      b ∉ q.filter fun b => !(decide (b ∈ p.take point)) := by
    intro b hb hmem
    have := (List.mem_filter.1 hmem).2
    simp at this
    exact this hb
  have hrawnd : (p.take point ++
      q.filter fun b => !(decide (b ∈ p.take point))).Nodup := by
    refine List.Nodup.append hfrontnd hfiltnd ?_
    intro b hb hb2
    exact hdisj b hb hb2
  have hsplit : (q.filter fun b => decide (b ∈ p.take point)).length +
      (q.filter fun b => !(decide (b ∈ p.take point))).length = q.length :=
    (List.length_eq_length_filter_add (fun b => decide (b ∈ p.take point))).symm
  have hinlen : (q.filter fun b => decide (b ∈ p.take point)).length ≤ point := by
    have hsubf : ∀ a ∈ q.filter fun b => decide (b ∈ p.take point),
        a ∈ p.take point := by
      intro a ha
      have h2 := (List.mem_filter.1 ha).2
      simpa using h2
    have := nodup_length_le_of_subset (hnq.filter _) hsubf
    omega
  have hrawlen : k ≤ (p.take point ++
      q.filter fun b => !(decide (b ∈ p.take point))).length := by
    rw [List.length_append, hfrontlen]
    omega
  have hrawsub : ∀ b ∈ p.take point ++
      q.filter fun b => !(decide (b ∈ p.take point)), b ∈ p ∨ b ∈ q := by
    intro b hb
    rcases List.mem_append.1 hb with hb | hb
    · exact Or.inl (List.mem_of_mem_take hb)
    · exact Or.inr (List.mem_of_mem_filter hb)
  by_cases hv : is_valid_combination dist mind
      (p.take point ++ q.filter fun b => !(decide (b ∈ p.take point))) = true
  · have hc : (crossover (is_valid_combination dist mind) k point p q).1 =
        (p.take point ++ q.filter fun b => !(decide (b ∈ p.take point))).take k := by
      simp only [crossover, hv, if_true]
    refine ⟨?_, ?_⟩
    · rw [hc]
      refine ⟨by rw [List.length_take]; omega,
        hrawnd.sublist (List.take_sublist _ _),
        is_valid_sublist (List.take_sublist _ _) hv,
        fun b hb => hrawsub b (List.mem_of_mem_take hb)⟩
    · intro hf
      rw [hv] at hf
      cases hf
  · have hv' : is_valid_combination dist mind
        (p.take point ++ q.filter fun b => !(decide (b ∈ p.take point))) = false := by
      simpa using hv
    have hc : (crossover (is_valid_combination dist mind) k point p q).1 =
        p.take k := by
      simp only [crossover, hv', Bool.false_eq_true, if_false]
    have hpk : p.take k = p := by rw [← hp]; exact List.take_length p
    rw [hc, hpk]
    exact ⟨⟨hp, hnp, hvp, fun b hb => Or.inl hb⟩, fun _ => rfl⟩

lemma crossover_snd_swap (valid : List Branch → Bool) (k point : ℕ)
    (p q : List Branch) :
    (crossover valid k point p q).2 = (crossover valid k point q p).1 := rfl

lemma mutateAttempts_spec (valid : List Branch → Bool) (idx : ℕ)
    (ind : List Branch) (cands : List Branch) (pick : ℕ → ℕ)
    (hc : cands ≠ []) :
    ∀ fuel a, ∃ res, mutateAttempts valid idx ind cands pick fuel a = some res ∧
      (res = ind ∨ (valid res = true ∧ ∃ nb ∈ cands, res = ind.set idx nb)) := by
  intro fuel
  induction fuel with
  | zero => exact fun a => ⟨ind, rfl, Or.inl rfl⟩
  | succ n ih =>
      intro a
      rcases cands with _ | ⟨c, cs⟩
      · exact absurd rfl hc
      · by_cases hv : valid (ind.set idx ((c :: cs).getD (pick a % (c :: cs).length) c)) = true
        · refine ⟨ind.set idx ((c :: cs).getD (pick a % (c :: cs).length) c), ?_, ?_⟩
          · simp only [mutateAttempts, hv, if_true]
          · exact Or.inr ⟨hv, (c :: cs).getD (pick a % (c :: cs).length) c,
              getD_mem c (Nat.mod_lt _ (by simp)), rfl⟩
        · rcases ih (a + 1) with ⟨res, hres, hcase⟩
          refine ⟨res, ?_, hcase⟩
          simp only [mutateAttempts, hv, Bool.false_eq_true, if_false]
          simpa using hres

lemma mutate_spec (valid : List Branch → Bool) (all_branches : List Branch)
    (coin : Bool) (idx0 : ℕ) (pick : ℕ → ℕ) (ind : List Branch)
    (hne : ∃ b ∈ all_branches, b ∉ ind) :
    ∃ res, mutate valid all_branches coin idx0 pick ind = some res ∧
      (res = ind ∨ (valid res = true ∧
        ∃ nb, nb ∈ all_branches ∧ nb ∉ ind ∧
          res = ind.set (idx0 % ind.length) nb)) := by
  by_cases hcoin : coin
  · have hcne : (all_branches.filter fun b => !(decide (b ∈ ind))) ≠ [] := by
      rcases hne with ⟨b, hb, hbn⟩
      intro hnil
      have : b ∈ all_branches.filter fun b => !(decide (b ∈ ind)) := by
        rw [List.mem_filter]
        exact ⟨hb, by simpa using hbn⟩
      rw [hnil] at this
      cases this
    rcases mutateAttempts_spec valid (idx0 % ind.length) ind _ pick hcne 50 0 with
      ⟨res, hres, hcase⟩
    refine ⟨res, by simp only [mutate, hcoin, if_true]; exact hres, ?_⟩
    rcases hcase with h | ⟨hv, nb, hnb, hset⟩
    · exact Or.inl h
    · refine Or.inr ⟨hv, nb, ?_, ?_, hset⟩
      · exact List.mem_of_mem_filter hnb
      · have := (List.mem_filter.1 hnb).2
        simpa using this
  · refine ⟨ind, ?_, Or.inl rfl⟩
    simp only [mutate, hcoin, Bool.false_eq_true, if_false]

lemma initLoop_congr (valid : List Branch → Bool) (draw draw2 : ℕ → List Branch)
    (popSize : ℕ) :
    ∀ fuel attempts pop,
      (∀ i, attempts ≤ i → i < attempts + fuel → draw i = draw2 i) →
      initLoop valid draw popSize fuel attempts pop =
        initLoop valid draw2 popSize fuel attempts pop := by
  intro fuel
  induction fuel with
  | zero => intro attempts pop _; rfl
  | succ n ih =>
      intro attempts pop hdr
      have hd : draw attempts = draw2 attempts :=
        hdr attempts le_rfl (by omega)
      simp only [initLoop]
      by_cases hlt : pop.length < popSize
      · simp only [hlt, if_true, hd]
        exact ih (attempts + 1) _ fun i h1 h2 => hdr i (by omega) (by omega)
      · simp only [hlt, if_false]

lemma initLoop_mem (valid : List Branch → Bool) (draw : ℕ → List Branch)
    (popSize : ℕ) :
    ∀ fuel attempts pop ind, ind ∈ initLoop valid draw popSize fuel attempts pop →
      ind ∈ pop ∨ (valid ind = true ∧ ∃ i, ind = draw i) := by
  intro fuel
  induction fuel with
  | zero => intro attempts pop ind h; exact Or.inl h
  | succ n ih =>
      intro attempts pop ind h
      simp only [initLoop] at h
      by_cases hlt : pop.length < popSize
      · rw [if_pos hlt] at h
        rcases ih _ _ _ h with hmem | hdraw
        · by_cases hv : valid (draw attempts) = true
          · rw [if_pos hv] at hmem
            rcases List.mem_append.1 hmem with hmem | hmem
            · exact Or.inl hmem
            · rcases List.mem_singleton.1 hmem with rfl
              exact Or.inr ⟨hv, attempts, rfl⟩
          · rw [if_neg hv] at hmem
            exact Or.inl hmem
        · exact Or.inr hdraw
      · rw [if_neg hlt] at h
        exact Or.inl h

lemma initLoop_length_le (valid : List Branch → Bool) (draw : ℕ → List Branch)
    (popSize : ℕ) :
    ∀ fuel attempts pop, pop.length ≤ popSize →
      (initLoop valid draw popSize fuel attempts pop).length ≤ popSize := by
  intro fuel
  induction fuel with
  | zero => intro attempts pop h; exact h
  | succ n ih =>
      intro attempts pop h
      simp only [initLoop]
      by_cases hlt : pop.length < popSize
      · rw [if_pos hlt]
        refine ih _ _ ?_
        by_cases hv : valid (draw attempts) = true
        · rw [if_pos hv, List.length_append]
          simp
          omega
        · rw [if_neg hv]
          omega
      · rw [if_neg hlt]
        exact h

lemma npArgmaxAux_spec :
    ∀ (rest : List PF) (i bi : ℕ) (bv : PF),
      (npArgmaxAux rest i bi bv = bi ∧ ∀ v ∈ rest, pfLtb bv v = false) ∨
      (∃ j, j < rest.length ∧ npArgmaxAux rest i bi bv = i + j ∧
        pfLtb bv (rest.getD j PF.nan) = true ∧
        ∀ v ∈ rest, pfLtb (rest.getD j PF.nan) v = false) := by
  intro rest
  induction rest with
  | nil => intro i bi bv; exact Or.inl ⟨rfl, fun v hv => absurd hv (List.not_mem_nil v)⟩
  | cons v tail ih =>
      intro i bi bv
      by_cases hlt : pfLtb bv v = true
      · have heq : npArgmaxAux (v :: tail) i bi bv = npArgmaxAux tail (i + 1) i v := by
          simp only [npArgmaxAux, hlt, if_true]
        rcases ih (i + 1) i v with ⟨h1, h2⟩ | ⟨j, hj, h1, h2, h3⟩
        · refine Or.inr ⟨0, by simp, by rw [heq, h1, Nat.add_zero], ?_, ?_⟩
          · simpa using hlt
          · intro w hw
            rcases List.mem_cons.1 hw with rfl | hw
            · simpa using pfLtb_irrefl w
            · simpa using h2 w hw
        · refine Or.inr ⟨j + 1, by simpa using hj, by rw [heq, h1]; omega, ?_, ?_⟩
          · have : (v :: tail).getD (j + 1) PF.nan = tail.getD j PF.nan := rfl
            rw [this]
            exact pfLtb_trans hlt h2
          · intro w hw
            have hgd : (v :: tail).getD (j + 1) PF.nan = tail.getD j PF.nan := rfl
            rw [hgd]
            rcases List.mem_cons.1 hw with rfl | hw
            · exact pfLtb_asymm h2
            · exact h3 w hw
      · have hlt' : pfLtb bv v = false := by simpa using hlt
        have heq : npArgmaxAux (v :: tail) i bi bv = npArgmaxAux tail (i + 1) bi bv := by
          simp only [npArgmaxAux, hlt', Bool.false_eq_true, if_false]
        rcases ih (i + 1) bi bv with ⟨h1, h2⟩ | ⟨j, hj, h1, h2, h3⟩
        · refine Or.inl ⟨by rw [heq, h1], ?_⟩
          intro w hw
          rcases List.mem_cons.1 hw with rfl | hw
          · exact hlt'
          · exact h2 w hw
        · refine Or.inr ⟨j + 1, by simpa using hj, by rw [heq, h1]; omega, ?_, ?_⟩
          · have hgd : (v :: tail).getD (j + 1) PF.nan = tail.getD j PF.nan := rfl
            rw [hgd]
            exact h2
          · intro w hw
            have hgd : (v :: tail).getD (j + 1) PF.nan = tail.getD j PF.nan := rfl
            rw [hgd]
            rcases List.mem_cons.1 hw with rfl | hw
            · by_contra hcon
              have hcon' : pfLtb (tail.getD j PF.nan) w = true := by
                simpa using hcon
              exact absurd (pfLtb_trans h2 hcon') (by simp [hlt'])
            · exact h3 w hw

lemma npArgmax_spec {l : List PF} (hl : l ≠ [])
    (hnn : ∀ v ∈ l, v ≠ PF.nan) :
    npArgmax l < l.length ∧
      ∀ v ∈ l, pfLtb (l.getD (npArgmax l) PF.nan) v = false := by
  have hfind : l.findIdx? (· = PF.nan) = none := by
    rw [List.findIdx?_eq_none_iff]
    intro x hx
    simpa using hnn x hx
  rcases l with _ | ⟨v, rest⟩
  · exact absurd rfl hl
  · have heq : npArgmax (v :: rest) = npArgmaxAux rest 1 0 v := by
      simp only [npArgmax, hfind]
    rcases npArgmaxAux_spec rest 1 0 v with ⟨h1, h2⟩ | ⟨j, hj, h1, h2, h3⟩
    · rw [heq, h1]
      refine ⟨by simp, ?_⟩
      intro w hw
      rcases List.mem_cons.1 hw with rfl | hw
      · simpa using pfLtb_irrefl w
      · simpa using h2 w hw
    · rw [heq, h1]
      have hgd : (v :: rest).getD (1 + j) PF.nan = rest.getD j PF.nan := by
        have : 1 + j = j + 1 := by omega
        rw [this]
        rfl
      refine ⟨by simp; omega, ?_⟩
      rw [hgd]
      intro w hw
      rcases List.mem_cons.1 hw with rfl | hw
      · exact pfLtb_asymm h2
      · exact h3 w hw

lemma gaRun_best_spec (dist : Branch → Branch → ℚ) (std : List ℚ → ℚ)
    (mind : ℚ) (k : ℕ) (all_branches : List Branch) (grand : ℕ → GenRand) :
    ∀ (gensLeft g : ℕ) (pop : List (List Branch)) (bSol : Option (List Branch))
      (bFit : PF) (tr : List (List (List Branch))) (r : List Branch),
      gaRun dist std mind k all_branches grand gensLeft g pop (bSol, bFit) =
        (tr, some r) →
      (∀ p' ∈ tr, p' ≠ []) →
      (∀ p' ∈ tr, ∀ ind ∈ p', ind ≠ []) →
      (∀ p' ∈ tr, ∀ ind ∈ p', evaluate_fitness dist std mind ind ≠ PF.nan) →
      bFit ≠ PF.nan →
      (bSol = none → bFit = PF.neginf) →
      (∀ s0, bSol = some s0 → bFit = evaluate_fitness dist std mind s0 ∧
        s0 ≠ [] ∧ bFit ≠ PF.neginf) →
      ((r = [] → bSol = none ∧ ∀ p' ∈ tr, ∀ ind ∈ p',
          evaluate_fitness dist std mind ind = PF.neginf) ∧
        (r ≠ [] → (bSol = some r ∨ ∃ p' ∈ tr, r ∈ p') ∧
          evaluate_fitness dist std mind r ≠ PF.nan ∧
          evaluate_fitness dist std mind r ≠ PF.neginf ∧
          pfLtb (evaluate_fitness dist std mind r) bFit = false ∧
          ∀ p' ∈ tr, ∀ ind ∈ p',
            pfLtb (evaluate_fitness dist std mind r)
              (evaluate_fitness dist std mind ind) = false)) := by
  intro gensLeft
  induction gensLeft with
  | zero =>
      intro g pop bSol bFit tr r heq htr1 htr2 htr3 hbnan hbnone hbsome
      simp only [gaRun] at heq
      rw [Prod.ext_iff] at heq
      obtain ⟨htr, hres⟩ := heq
      subst htr
      cases bSol with
      | none =>
          simp at hres
          subst hres
          exact ⟨fun _ => ⟨rfl, by simp⟩, fun hne => absurd rfl hne⟩
      | some s0 =>
          simp at hres
          subst hres
          obtain ⟨hfit, hsne, hfne⟩ := hbsome s0 rfl
          refine ⟨fun h => absurd h hsne, fun _ => ?_⟩
          exact ⟨Or.inl rfl, hfit ▸ hbnan, hfit ▸ hfne,
            hfit ▸ pfLtb_irrefl _, by simp⟩
  | succ n ih =>
      intro g pop bSol bFit tr r heq htr1 htr2 htr3 hbnan hbnone hbsome
      simp only [gaRun] at heq
      rcases hstep : gaStep dist std mind k all_branches (grand g) pop with _ | pop'
      · rw [hstep] at heq
        simp at heq
      · rw [hstep] at heq
        simp only at heq
        rw [Prod.ext_iff] at heq
        obtain ⟨htr, hres⟩ := heq
        simp only at htr hres
        subst htr
        set scores := pop.map (evaluate_fitness dist std mind) with hscores
        set idx := npArgmax scores with hidxdef
        set s := scores.getD idx PF.nan with hsdef
        by_cases hup : pfLtb bFit s = true
        · simp only [hup, if_true] at hres htr1 htr2 htr3 ⊢
          have hpopmem : pop ∈ pop :: (gaRun dist std mind k all_branches grand n
              (g + 1) pop' (some (pop.getD idx []), s)).1 :=
            List.mem_cons_self _ _
          have hpopne : pop ≠ [] := htr1 pop hpopmem
          have hpopnonan : ∀ ind ∈ pop,
              evaluate_fitness dist std mind ind ≠ PF.nan :=
            htr3 pop hpopmem
          have hscne : scores ≠ [] := by
            rw [hscores]
            simpa using hpopne
          have hscnonan : ∀ v ∈ scores, v ≠ PF.nan := by
            intro v hv
            rw [hscores] at hv
            rcases List.mem_map.1 hv with ⟨ind, hind, rfl⟩
            exact hpopnonan ind hind
          obtain ⟨hidxlt0, hdom0⟩ := npArgmax_spec hscne hscnonan
          have hidxlt : idx < scores.length := by rw [hidxdef]; exact hidxlt0
          have hdom : ∀ v ∈ scores, pfLtb s v = false := by
            rw [hsdef, hidxdef]
            exact hdom0
          have hpoplt : idx < pop.length := by
            rw [hscores, List.length_map] at hidxlt
            exact hidxlt
          have hsval : s = evaluate_fitness dist std mind (pop.getD idx []) := by
            rw [hsdef, hscores, List.getD_eq_getElem _ _ hidxlt,
              List.getD_eq_getElem _ _ hpoplt]
            rw [hscores] at hidxlt
            rw [List.getElem_map]
          have hsnan : s ≠ PF.nan := by
            rw [hsval]
            exact hpopnonan _ (getD_mem [] hpoplt)
          have hsne2 : s ≠ PF.neginf := by
            intro hcon
            rw [hcon, pfLtb_neginf_right] at hup
            cases hup
          have heq2 : gaRun dist std mind k all_branches grand n (g + 1) pop'
              (some (pop.getD idx []), s) =
              ((gaRun dist std mind k all_branches grand n (g + 1) pop'
                (some (pop.getD idx []), s)).1, some r) := by
            rw [← hres]
          obtain ⟨ihc1, ihc2⟩ := ih (g + 1) pop' (some (pop.getD idx [])) s _ r
            heq2
            (fun p' hp' => htr1 p' (List.mem_cons_of_mem _ hp'))
            (fun p' hp' => htr2 p' (List.mem_cons_of_mem _ hp'))
            (fun p' hp' => htr3 p' (List.mem_cons_of_mem _ hp'))
            hsnan
            (fun hcon => by cases hcon)
            (fun s0 hs0 => by
              injection hs0 with hs0
              subst hs0
              exact ⟨hsval, htr2 pop hpopmem _ (getD_mem [] hpoplt), hsne2⟩)
          constructor
          · intro hre
            rcases ihc1 hre with ⟨hcon, _⟩
            cases hcon
          · intro hre
            obtain ⟨hprov, hrnan, hrneg, hrle, hrdom⟩ := ihc2 hre
            refine ⟨?_, hrnan, hrneg, ?_, ?_⟩
            · rcases hprov with hcase | ⟨p', hp', hrp'⟩
              · injection hcase with hcase
                exact Or.inr ⟨pop, hpopmem, hcase ▸ getD_mem [] hpoplt⟩
              · exact Or.inr ⟨p', List.mem_cons_of_mem _ hp', hrp'⟩
            · by_contra hcon
              have hcon' : pfLtb (evaluate_fitness dist std mind r) bFit = true := by
                simpa using hcon
              rw [pfLtb_trans hcon' hup] at hrle
              cases hrle
            · intro p' hp' ind hind
              rcases List.mem_cons.1 hp' with rfl | hp'
              · have hv : evaluate_fitness dist std mind ind ∈ scores := by
                  rw [hscores]
                  exact List.mem_map_of_mem _ hind
                exact pfLtb_not_trans hrnan hsnan
                  (hpopnonan ind hind) hrle (hdom _ hv)
              · exact hrdom p' hp' ind hind
        · have hup' : pfLtb bFit s = false := by simpa using hup
          simp only [hup', Bool.false_eq_true, if_false] at hres htr1 htr2 htr3 ⊢
          have hpopmem : pop ∈ pop :: (gaRun dist std mind k all_branches grand n
              (g + 1) pop' (bSol, bFit)).1 :=
            List.mem_cons_self _ _
          have hpopne : pop ≠ [] := htr1 pop hpopmem
          have hpopnonan : ∀ ind ∈ pop,
              evaluate_fitness dist std mind ind ≠ PF.nan :=
            htr3 pop hpopmem
          have hscne : scores ≠ [] := by
            rw [hscores]
            simpa using hpopne
          have hscnonan : ∀ v ∈ scores, v ≠ PF.nan := by
            intro v hv
            rw [hscores] at hv
            rcases List.mem_map.1 hv with ⟨ind, hind, rfl⟩
            exact hpopnonan ind hind
          obtain ⟨hidxlt0, hdom0⟩ := npArgmax_spec hscne hscnonan
          have hidxlt : idx < scores.length := by rw [hidxdef]; exact hidxlt0
          have hdom : ∀ v ∈ scores, pfLtb s v = false := by
            rw [hsdef, hidxdef]
            exact hdom0
          have hpoplt : idx < pop.length := by
            rw [hscores, List.length_map] at hidxlt
            exact hidxlt
          have hsnan : s ≠ PF.nan := by
            have hmem : s ∈ scores := by
              rw [hsdef]
              exact getD_mem PF.nan hidxlt
            exact hscnonan _ hmem
          have heq2 : gaRun dist std mind k all_branches grand n (g + 1) pop'
              (bSol, bFit) =
              ((gaRun dist std mind k all_branches grand n (g + 1) pop'
                (bSol, bFit)).1, some r) := by
            rw [← hres]
          obtain ⟨ihc1, ihc2⟩ := ih (g + 1) pop' bSol bFit _ r heq2
            (fun p' hp' => htr1 p' (List.mem_cons_of_mem _ hp'))
            (fun p' hp' => htr2 p' (List.mem_cons_of_mem _ hp'))
            (fun p' hp' => htr3 p' (List.mem_cons_of_mem _ hp'))
            hbnan hbnone hbsome
          constructor
          · intro hre
            obtain ⟨hnone, htail⟩ := ihc1 hre
            have hbneg : bFit = PF.neginf := hbnone hnone
            have hsneg : s = PF.neginf := by
              refine pfLtb_neginf_false hsnan ?_
              rw [← hbneg]
              exact hup'
            refine ⟨hnone, ?_⟩
            intro p' hp' ind hind
            rcases List.mem_cons.1 hp' with rfl | hp'
            · have hv : evaluate_fitness dist std mind ind ∈ scores := by
                rw [hscores]
                exact List.mem_map_of_mem _ hind
              have hdv := hdom _ hv
              rw [hsneg] at hdv
              exact pfLtb_neginf_false (hpopnonan ind hind) hdv
            · exact htail p' hp' ind hind
          · intro hre
            obtain ⟨hprov, hrnan, hrneg, hrle, hrdom⟩ := ihc2 hre
            refine ⟨?_, hrnan, hrneg, hrle, ?_⟩
            · rcases hprov with hcase | ⟨p', hp', hrp'⟩
              · exact Or.inl hcase
              · exact Or.inr ⟨p', List.mem_cons_of_mem _ hp', hrp'⟩
            · intro p' hp' ind hind
              rcases List.mem_cons.1 hp' with rfl | hp'
              · have hv : evaluate_fitness dist std mind ind ∈ scores := by
                  rw [hscores]
                  exact List.mem_map_of_mem _ hind
                have h1 : pfLtb (evaluate_fitness dist std mind r) s = false :=
                  pfLtb_not_trans hrnan hbnan hsnan hrle hup'
                exact pfLtb_not_trans hrnan hsnan
                  (hpopnonan ind hind) h1 (hdom _ hv)
              · exact hrdom p' hp' ind hind

lemma tournamentWinner_mem (pop : List (List Branch)) (scores : List PF)
    (t : ℕ × ℕ × ℕ) (h : pop ≠ []) : tournamentWinner pop scores t ∈ pop := by
  have hn : 0 < pop.length := List.length_pos.2 h
  simp only [tournamentWinner]
  split_ifs <;> exact getD_mem [] (Nat.mod_lt _ hn)

lemma select_parents_spec (pop : List (List Branch)) (scores : List PF)
    (tsel : ℕ → ℕ × ℕ × ℕ) :
    (select_parents pop scores tsel).length = pop.length ∧
      ∀ q ∈ select_parents pop scores tsel, q ∈ pop := by
  constructor
  · simp [select_parents]
  · intro q hq
    rcases List.mem_map.1 hq with ⟨j, hj, rfl⟩
    have hn : pop ≠ [] := by
      intro hcon
      rw [hcon] at hj
      simp at hj
    exact tournamentWinner_mem pop scores (tsel j) hn

lemma mutate_invariant {valid : List Branch → Bool} {pool : List Branch}
    (coin : Bool) (idx0 : ℕ) (pick : ℕ → ℕ) {ind : List Branch} {k : ℕ}
    (hpool : pool.Nodup) (hlen : ind.length = k) (hlt : k < pool.length)
    (hnd : ind.Nodup) (hval : valid ind = true) (hsub : ∀ b ∈ ind, b ∈ pool) :
    ∃ res, mutate valid pool coin idx0 pick ind = some res ∧
      res.length = k ∧ res.Nodup ∧ valid res = true ∧ ∀ b ∈ res, b ∈ pool := by
  have hne : ∃ b ∈ pool, b ∉ ind := exists_fresh hpool (hlen ▸ hlt)
  rcases mutate_spec valid pool coin idx0 pick ind hne with ⟨res, hres, hcase⟩
  rcases hcase with rfl | ⟨hv, nb, hnb, hnbi, rfl⟩
  · exact ⟨_, hres, hlen, hnd, hval, hsub⟩
  · refine ⟨_, hres, by simpa using hlen, hnd.set hnbi, hv, ?_⟩
    intro b hb
    rcases List.mem_or_eq_of_mem_set hb with hb | rfl
    · exact hsub b hb
    · exact hnb

lemma crossover_invariant (dist : Branch → Branch → ℚ) (mind : ℚ)
    {k point : ℕ} {p q : List Branch} {pool : List Branch}
    (hp : p.length = k) (hq : q.length = k) (hnp : p.Nodup) (hnq : q.Nodup)
    (hvp : is_valid_combination dist mind p = true)
    (hvq : is_valid_combination dist mind q = true)
    (hsp : ∀ b ∈ p, b ∈ pool) (hsq : ∀ b ∈ q, b ∈ pool) (hpt : point ≤ k) :
    ((crossover (is_valid_combination dist mind) k point p q).1.length = k ∧
      (crossover (is_valid_combination dist mind) k point p q).1.Nodup ∧
      is_valid_combination dist mind
        (crossover (is_valid_combination dist mind) k point p q).1 = true ∧
      ∀ b ∈ (crossover (is_valid_combination dist mind) k point p q).1,
        b ∈ pool) ∧
    ((crossover (is_valid_combination dist mind) k point p q).2.length = k ∧
      (crossover (is_valid_combination dist mind) k point p q).2.Nodup ∧
      is_valid_combination dist mind
        (crossover (is_valid_combination dist mind) k point p q).2 = true ∧
      ∀ b ∈ (crossover (is_valid_combination dist mind) k point p q).2,
        b ∈ pool) := by
  obtain ⟨⟨h1, h2, h3, h4⟩, _⟩ :=
    crossover_fst_spec dist mind hp hq hnp hnq hvp hpt
  obtain ⟨⟨g1, g2, g3, g4⟩, _⟩ :=
    crossover_fst_spec dist mind hq hp hnq hnp hvq hpt
  rw [← crossover_snd_swap (is_valid_combination dist mind) k point p q] at g1 g2 g3 g4
  exact ⟨⟨h1, h2, h3, fun b hb => (h4 b hb).elim (hsp b) (hsq b)⟩,
    ⟨g1, g2, g3, fun b hb => (g4 b hb).elim (hsq b) (hsp b)⟩⟩

lemma breedLoop_spec (dist : Branch → Branch → ℚ) (mind : ℚ) (k : ℕ)
    (pool : List Branch) (r : GenRand) (hk : 2 ≤ k) (hpool : pool.Nodup)
    (hlt : k < pool.length) :
    ∀ (parents : List (List Branch)) (j : ℕ), 2 ∣ parents.length →
      (∀ q ∈ parents, q.length = k ∧ q.Nodup ∧
        is_valid_combination dist mind q = true ∧ ∀ b ∈ q, b ∈ pool) →
      ∃ out, breedLoop (is_valid_combination dist mind) k pool r j parents =
          some out ∧
        out.length = parents.length ∧
        ∀ q ∈ out, q.length = k ∧ q.Nodup ∧
          is_valid_combination dist mind q = true ∧ ∀ b ∈ q, b ∈ pool
  | [], j, _, _ => ⟨[], rfl, rfl, by simp⟩
  | [q], _, hdvd, _ => by
      simp at hdvd
  | q1 :: q2 :: rest, j, hdvd, hinv => by
      obtain ⟨hl1, hn1, hv1, hs1⟩ := hinv q1 (List.mem_cons_self _ _)
      obtain ⟨hl2, hn2, hv2, hs2⟩ :=
        hinv q2 (List.mem_cons_of_mem _ (List.mem_cons_self _ _))
      have hpt : 1 + r.cut j % (k - 1) ≤ k := by
        have hmod : r.cut j % (k - 1) < k - 1 := Nat.mod_lt _ (by omega)
        omega
      obtain ⟨⟨c1l, c1n, c1v, c1s⟩, ⟨c2l, c2n, c2v, c2s⟩⟩ :=
        crossover_invariant dist mind hl1 hl2 hn1 hn2 hv1 hv2 hs1 hs2 hpt
      obtain ⟨d1, hd1, d1l, d1n, d1v, d1s⟩ :=
        mutate_invariant (r.coin (2 * j)) (r.midx (2 * j))
          (r.mpick (2 * j)) hpool c1l hlt c1n c1v c1s
      obtain ⟨d2, hd2, d2l, d2n, d2v, d2s⟩ :=
        mutate_invariant (r.coin (2 * j + 1)) (r.midx (2 * j + 1))
          (r.mpick (2 * j + 1)) hpool c2l hlt c2n c2v c2s
      have hdvd' : 2 ∣ rest.length := by
        simp at hdvd
        omega
      obtain ⟨tail, htail, htl, htinv⟩ :=
        breedLoop_spec dist mind k pool r hk hpool hlt rest (j + 1) hdvd'
          fun q hq => hinv q (List.mem_cons_of_mem _ (List.mem_cons_of_mem _ hq))
      refine ⟨d1 :: d2 :: tail, ?_, by simp [htl], ?_⟩
      · simp only [breedLoop, hd1, hd2, htail]
      · intro q hq
        rcases List.mem_cons.1 hq with rfl | hq
        · exact ⟨d1l, d1n, d1v, d1s⟩
        · rcases List.mem_cons.1 hq with rfl | hq
          · exact ⟨d2l, d2n, d2v, d2s⟩
          · exact htinv q hq

lemma npMean_ne_nil {J : List ℚ} (h : J ≠ []) :
    npMean J = PF.fin (J.sum / (J.length : ℚ)) := by
  unfold npMean
  rw [if_neg]
  simp [h]

lemma evaluate_fitness_fin (dist : Branch → Branch → ℚ) (std : List ℚ → ℚ)
    (mind : ℚ) {J : List Branch}
    (hJ : is_valid_combination dist mind J = true) (hJne : J ≠ [])
    (hm : (J.map Branch.income_per_capita).sum /
      ((J.map Branch.income_per_capita).length : ℚ) ≠ 0) :
    ∃ v, evaluate_fitness dist std mind J = PF.fin v := by
  have hmne : (J.map Branch.income_per_capita) ≠ [] := by simp [hJne]
  have hpne : (J.map Branch.total_score) ≠ [] := by simp [hJne]
  simp only [evaluate_fitness, hJ, if_true, calculate_diversity_score,
    income_diversity, calculate_performance_score, npMean_ne_nil hmne,
    npMean_ne_nil hpne, pfDiv, pfSub, pfNeg, pfAdd, pfMul, hm, if_false]
  norm_num

lemma type_diversity_bounds {l : List Branch} (h : l ≠ []) :
    0 ≤ type_diversity l ∧ type_diversity l ≤ 1 := by
  have hlen : 0 < l.length := List.length_pos.2 h
  have htne : l.map Branch.branch_type ≠ [] := by simp [h]
  have h1 : 1 ≤ maxTypeCount (l.map Branch.branch_type) :=
    one_le_maxTypeCount htne
  have h2 : maxTypeCount (l.map Branch.branch_type) ≤ l.length := by
    have := maxTypeCount_le (l.map Branch.branch_type)
    simpa using this
  unfold type_diversity
  constructor
  · have hq : (maxTypeCount (l.map Branch.branch_type) : ℚ) / (l.length : ℚ) ≤ 1 := by
      rw [div_le_one (by exact_mod_cast hlen)]
      exact_mod_cast h2
    linarith
  · have hq : 0 ≤ (maxTypeCount (l.map Branch.branch_type) : ℚ) / (l.length : ℚ) :=
      div_nonneg (by positivity) (by positivity)
    linarith

lemma region_diversity_bounds {l : List Branch} (h : l ≠ []) :
    1/5 ≤ region_diversity l ∧ region_diversity l ≤ 6/5 := by
  have hne : (l.map get_region).dedup ≠ [] := by
    simp [List.dedup_eq_nil, h]
  have h1 : 1 ≤ (l.map get_region).dedup.length := by
    have := List.length_pos.2 hne
    omega
  have h2 : (l.map get_region).dedup.length ≤ 6 := by
    have hcard : Fintype.card Region = 6 := by decide
    have := List.Nodup.length_le_card (l.map get_region).nodup_dedup
    omega
  unfold region_diversity
  constructor
  · rw [div_le_div_iff_of_pos_right (by norm_num)]
    exact_mod_cast h1
  · rw [div_le_div_iff_of_pos_right (by norm_num)]
    exact_mod_cast h2

lemma income_diversity_le_one (std : List ℚ → ℚ) {l : List Branch}
    (h : l ≠ []) (hstd : 0 ≤ std (l.map Branch.income_per_capita))
    (hm : 0 < (l.map Branch.income_per_capita).sum /
      ((l.map Branch.income_per_capita).length : ℚ)) :
    ∃ v, income_diversity std l = PF.fin v ∧ v ≤ 1 := by
  have hmne : (l.map Branch.income_per_capita) ≠ [] := by simp [h]
  refine ⟨1 - std (l.map Branch.income_per_capita) /
      ((l.map Branch.income_per_capita).sum /
        ((l.map Branch.income_per_capita).length : ℚ)), ?_, ?_⟩
  · simp only [income_diversity, npMean_ne_nil hmne, pfDiv, hm.ne', if_false,
      pfSub, pfNeg, pfAdd]
    norm_num
    ring
  · have : 0 ≤ std (l.map Branch.income_per_capita) /
        ((l.map Branch.income_per_capita).sum /
          ((l.map Branch.income_per_capita).length : ℚ)) :=
      div_nonneg hstd hm.le
    linarith

/-- A concrete distance evaluator used for witnesses: squared latitude
difference (symmetric, zero on coinciding latitudes).  The theorems hold for
every distance function; witnesses pick this one. -/
def dist0 (a b : Branch) : ℚ := (a.latitude - b.latitude) * (a.latitude - b.latitude)

/-- A concrete `np.std` instance used for witnesses: the witnesses only apply
it to constant lists, whose standard deviation is exactly 0. -/
def std0 : List ℚ → ℚ := fun _ => 0

def bM1 : Branch := ⟨1, "m1", "m", "zur", 0, 0, 1000, 2000, 100, 1/2⟩

def bM2 : Branch := ⟨2, "m2", "l", "ber", 10, 0, 500, 1000, 100, 1⟩

def bM3 : Branch := ⟨3, "m3", "m", "gen", 20, 0, 800, 600, 100, 3/4⟩

def bM4 : Branch := ⟨4, "m4", "s", "bas", 30, 0, 700, 400, 100, 1/4⟩

def bZ1 : Branch := ⟨11, "z1", "m", "zur", 40, 0, 100, 100, 0, 1/2⟩

def bZ2 : Branch := ⟨12, "z2", "l", "ber", 50, 0, 100, 100, 0, 1/2⟩

def bC1 : Branch := ⟨21, "c1", "m", "zur", 60, 0, 100, 100, 100, 1/2⟩

def bC2 : Branch := ⟨22, "c2", "l", "zur", 60, 0, 100, 100, 100, 1/2⟩

def rN : Branch := ⟨31, "rn", "m", "x", 47.7, 8.5, 0, 0, 100, 0⟩

def rE : Branch := ⟨32, "re", "m", "x", 47.2, 9.5, 0, 0, 100, 0⟩

def rS : Branch := ⟨33, "rs", "m", "x", 46.5, 8.5, 0, 0, 100, 0⟩

def rW : Branch := ⟨34, "rw", "m", "x", 47.2, 7.5, 0, 0, 100, 0⟩

def rC : Branch := ⟨35, "rc", "m", "x", 46.7, 7.5, 0, 0, 100, 0⟩

def rO : Branch := ⟨36, "ro", "m", "x", 40, 0, 0, 0, 100, 0⟩

/-- C1: for every Individual that satisfies the minimum-distance constraint,
`evaluate_fitness` returns exactly `0.4 × coverage + 0.3 × diversity +
0.3 × performance`, where coverage is the sum over members of
(inner population + 0.5 × outer population), diversity is the (float) mean
of the three diversity sub-scores, and performance is the mean of the
members' precomputed total scores. -/
theorem C1_evaluate_fitness_formula (dist : Branch → Branch → ℚ)
    (std : List ℚ → ℚ) (mind : ℚ) (I : List Branch) (hI : I ≠ [])
    (hv : is_valid_combination dist mind I = true) :
    evaluate_fitness dist std mind I =
      pfAdd
        (pfAdd
          (pfMul (PF.fin 0.4)
            (PF.fin ((I.map fun b =>
              b.inner_population + b.outer_population * 0.5).sum)))
          (pfMul (PF.fin 0.3)
            (pfDiv
              (pfAdd
                (pfAdd (PF.fin (type_diversity I)) (PF.fin (region_diversity I)))
                (income_diversity std I))
              (PF.fin 3))))
        (pfMul (PF.fin 0.3)
          (PF.fin ((I.map Branch.total_score).sum / (I.length : ℚ)))) := by
  have hpne : I.map Branch.total_score ≠ [] := by simp [hI]
  simp only [evaluate_fitness, hv, if_true, calculate_diversity_score,
    calculate_performance_score, npMean_ne_nil hpne,
    calculate_coverage_score_eq, List.length_map]

theorem C1_witness :
    ([bM1, bM2] ≠ ([] : List Branch)) ∧
    is_valid_combination dist0 5 [bM1, bM2] = true ∧
    evaluate_fitness dist0 std0 5 [bM1, bM2] =
      pfAdd
        (pfAdd
          (pfMul (PF.fin 0.4)
            (PF.fin (([bM1, bM2].map fun b =>
              b.inner_population + b.outer_population * 0.5).sum)))
          (pfMul (PF.fin 0.3)
            (pfDiv
              (pfAdd
                (pfAdd (PF.fin (type_diversity [bM1, bM2]))
                  (PF.fin (region_diversity [bM1, bM2])))
                (income_diversity std0 [bM1, bM2]))
              (PF.fin 3))))
        (pfMul (PF.fin 0.3)
          (PF.fin (([bM1, bM2].map Branch.total_score).sum /
            (([bM1, bM2] : List Branch).length : ℚ)))) := by
  have h1 : ([bM1, bM2] ≠ ([] : List Branch)) := by simp
  have h2 : is_valid_combination dist0 5 [bM1, bM2] = true := by
    norm_num [is_valid_combination, dist0, bM1, bM2]
  exact ⟨h1, h2, C1_evaluate_fitness_formula dist0 std0 5 [bM1, bM2] h1 h2⟩

/-- C2 (amended): an Individual violating the minimum-distance constraint
gets the sentinel `-inf`, and this is strictly below the fitness of every
valid Individual whose members' mean income is nonzero (for a valid
Individual with zero mean income the fitness is `nan` and the strict
comparison fails — see the counterexample). -/
theorem C2_invalid_below_valid (dist : Branch → Branch → ℚ)
    (std : List ℚ → ℚ) (mind : ℚ) (I J : List Branch)
    (hI : is_valid_combination dist mind I = false)
    (hJ : is_valid_combination dist mind J = true) (hJne : J ≠ [])
    (hm : (J.map Branch.income_per_capita).sum /
      ((J.map Branch.income_per_capita).length : ℚ) ≠ 0) :
    evaluate_fitness dist std mind I = PF.neginf ∧
      pfLtb (evaluate_fitness dist std mind I)
        (evaluate_fitness dist std mind J) = true := by
  have h1 : evaluate_fitness dist std mind I = PF.neginf := by
    simp [evaluate_fitness, hI]
  obtain ⟨v, hv⟩ := evaluate_fitness_fin dist std mind hJ hJne hm
  exact ⟨h1, by rw [h1, hv]; rfl⟩

theorem C2_witness :
    is_valid_combination dist0 5 [bC1, bC2] = false ∧
    is_valid_combination dist0 5 [bM1, bM2] = true ∧
    ([bM1, bM2] ≠ ([] : List Branch)) ∧
    (([bM1, bM2].map Branch.income_per_capita).sum /
      (([bM1, bM2].map Branch.income_per_capita).length : ℚ) ≠ 0) ∧
    (evaluate_fitness dist0 std0 5 [bC1, bC2] = PF.neginf ∧
      pfLtb (evaluate_fitness dist0 std0 5 [bC1, bC2])
        (evaluate_fitness dist0 std0 5 [bM1, bM2]) = true) := by
  have h1 : is_valid_combination dist0 5 [bC1, bC2] = false := by
    norm_num [is_valid_combination, dist0, bC1, bC2]
  have h2 : is_valid_combination dist0 5 [bM1, bM2] = true := by
    norm_num [is_valid_combination, dist0, bM1, bM2]
  have h3 : ([bM1, bM2] ≠ ([] : List Branch)) := by simp
  have h4 : (([bM1, bM2].map Branch.income_per_capita).sum /
      (([bM1, bM2].map Branch.income_per_capita).length : ℚ) ≠ 0) := by
    norm_num [bM1, bM2]
  exact ⟨h1, h2, h3, h4, C2_invalid_below_valid dist0 std0 5 _ _ h1 h2 h3 h4⟩

theorem C2_counterexample :
    is_valid_combination dist0 5 [bC1, bC2] = false ∧
    is_valid_combination dist0 5 [bZ1, bZ2] = true ∧
    evaluate_fitness dist0 std0 5 [bC1, bC2] = PF.neginf ∧
    evaluate_fitness dist0 std0 5 [bZ1, bZ2] = PF.nan ∧
    pfLtb (evaluate_fitness dist0 std0 5 [bC1, bC2])
      (evaluate_fitness dist0 std0 5 [bZ1, bZ2]) = false := by
  have h1 : is_valid_combination dist0 5 [bC1, bC2] = false := by
    norm_num [is_valid_combination, dist0, bC1, bC2]
  have h2 : is_valid_combination dist0 5 [bZ1, bZ2] = true := by
    norm_num [is_valid_combination, dist0, bZ1, bZ2]
  have h3 : evaluate_fitness dist0 std0 5 [bC1, bC2] = PF.neginf := by
    simp [evaluate_fitness, h1]
  have h4 : evaluate_fitness dist0 std0 5 [bZ1, bZ2] = PF.nan := by
    simp only [evaluate_fitness, h2, if_true]
    norm_num [calculate_diversity_score, income_diversity, npMean, bZ1, bZ2,
      std0, pfDiv, pfSub, pfNeg, pfAdd, pfMul]
  refine ⟨h1, h2, h3, h4, ?_⟩
  rw [h3, h4]
  rfl

/-- C3: for an Individual whose members all have income 0 (so the mean income
is zero), the income-diversity computation divides 0 by 0; under numpy float
semantics the sub-score, the diversity score and the fitness all evaluate to
`nan` — the code contains no fallback that treats the sub-score as zero, so
the spec's required zero-fallback is absent from the code. -/
theorem C3_zero_mean_income_gives_nan :
    (([bZ1, bZ2].map Branch.income_per_capita).sum /
      (([bZ1, bZ2].map Branch.income_per_capita).length : ℚ)) = 0 ∧
    income_diversity std0 [bZ1, bZ2] = PF.nan ∧
    calculate_diversity_score std0 [bZ1, bZ2] = PF.nan ∧
    evaluate_fitness dist0 std0 5 [bZ1, bZ2] = PF.nan := by
  have h2 : is_valid_combination dist0 5 [bZ1, bZ2] = true := by
    norm_num [is_valid_combination, dist0, bZ1, bZ2]
  have hinc : income_diversity std0 [bZ1, bZ2] = PF.nan := by
    norm_num [income_diversity, npMean, bZ1, bZ2, std0, pfDiv, pfSub, pfNeg,
      pfAdd]
  have hdiv : calculate_diversity_score std0 [bZ1, bZ2] = PF.nan := by
    simp only [calculate_diversity_score, hinc]
    norm_num [pfDiv, pfAdd]
  refine ⟨by norm_num [bZ1, bZ2], hinc, hdiv, ?_⟩
  simp only [evaluate_fitness, h2, if_true, hdiv]
  norm_num [pfAdd, pfMul]

/-- C4 (amended): for a nonempty Individual with positive mean income and a
nonnegative standard deviation value, the type-diversity sub-score lies in
`[0, 1]`, the region-diversity sub-score lies in `[1/5, 6/5]` (it can exceed
1 when the sentinel `other` region is represented together with all five
configured regions — see the counterexample), and the income-diversity
sub-score is a finite value at most 1 (it can be negative). -/
theorem C4_diversity_subscore_bounds (std : List ℚ → ℚ) (l : List Branch)
    (hne : l ≠ []) (hstd : 0 ≤ std (l.map Branch.income_per_capita))
    (hm : 0 < (l.map Branch.income_per_capita).sum /
      ((l.map Branch.income_per_capita).length : ℚ)) :
    (0 ≤ type_diversity l ∧ type_diversity l ≤ 1) ∧
    (1/5 ≤ region_diversity l ∧ region_diversity l ≤ 6/5) ∧
    (∃ v, income_diversity std l = PF.fin v ∧ v ≤ 1) :=
  ⟨type_diversity_bounds hne, region_diversity_bounds hne,
    income_diversity_le_one std hne hstd hm⟩

theorem C4_witness :
    ([bM1] ≠ ([] : List Branch)) ∧
    (0 ≤ std0 ([bM1].map Branch.income_per_capita)) ∧
    (0 < ([bM1].map Branch.income_per_capita).sum /
      (([bM1].map Branch.income_per_capita).length : ℚ)) ∧
    ((0 ≤ type_diversity [bM1] ∧ type_diversity [bM1] ≤ 1) ∧
      (1/5 ≤ region_diversity [bM1] ∧ region_diversity [bM1] ≤ 6/5) ∧
      (∃ v, income_diversity std0 [bM1] = PF.fin v ∧ v ≤ 1)) := by
  have h1 : ([bM1] ≠ ([] : List Branch)) := by simp
  have h2 : 0 ≤ std0 ([bM1].map Branch.income_per_capita) := by norm_num [std0]
  have h3 : 0 < ([bM1].map Branch.income_per_capita).sum /
      (([bM1].map Branch.income_per_capita).length : ℚ) := by
    norm_num [bM1]
  exact ⟨h1, h2, h3, C4_diversity_subscore_bounds std0 [bM1] h1 h2 h3⟩

theorem C4_counterexample :
    (0 < (([rN, rE, rS, rW, rC, rO].map Branch.income_per_capita).sum /
      (([rN, rE, rS, rW, rC, rO].map Branch.income_per_capita).length : ℚ))) ∧
    region_diversity [rN, rE, rS, rW, rC, rO] = 6/5 ∧
    ¬ region_diversity [rN, rE, rS, rW, rC, rO] ≤ 1 := by
  have hreg : region_diversity [rN, rE, rS, rW, rC, rO] = 6/5 := by
    have hN : get_region rN = Region.north := by norm_num [get_region, rN]
    have hE : get_region rE = Region.east := by norm_num [get_region, rE]
    have hS : get_region rS = Region.south := by norm_num [get_region, rS]
    have hW : get_region rW = Region.west := by norm_num [get_region, rW]
    have hC : get_region rC = Region.central := by norm_num [get_region, rC]
    have hO : get_region rO = Region.other := by norm_num [get_region, rO]
    simp only [region_diversity, List.map_cons, List.map_nil, hN, hE, hS, hW,
      hC, hO]
    have hd : [Region.north, Region.east, Region.south, Region.west,
        Region.central, Region.other].dedup.length = 6 := by decide
    rw [hd]
    norm_num
  refine ⟨by norm_num [rN, rE, rS, rW, rC, rO], hreg, ?_⟩
  rw [hreg]
  norm_num

/-- C5: `initialize_population` consults at most `10 × popSize` sampling
outcomes (its result depends only on the first `10 × popSize` draws); when it
fails the GA driver returns the empty failure result with no partial answer;
when it succeeds the returned population has exactly `popSize` Individuals,
each valid with exactly `k` distinct members (given `random.sample`'s
contract of producing `k` distinct candidates per draw). -/
theorem C5_initialize_population_spec (dist : Branch → Branch → ℚ) (mind : ℚ)
    (draw : ℕ → List Branch) (popSize k : ℕ)
    (hdraw : ∀ i, (draw i).length = k ∧ (draw i).Nodup) :
    (∀ draw2 : ℕ → List Branch, (∀ i, i < popSize * 10 → draw i = draw2 i) →
      initialize_population (is_valid_combination dist mind) draw popSize =
        initialize_population (is_valid_combination dist mind) draw2 popSize) ∧
    (∀ (std : List ℚ → ℚ) (all_branches : List Branch) (grand : ℕ → GenRand)
      (gens : ℕ),
      initialize_population (is_valid_combination dist mind) draw popSize =
        none →
      find_optimal_combination dist std mind k all_branches draw grand popSize
        gens = some []) ∧
    (∀ pop,
      initialize_population (is_valid_combination dist mind) draw popSize =
        some pop →
      pop.length = popSize ∧ ∀ ind ∈ pop,
        is_valid_combination dist mind ind = true ∧
        ind.length = k ∧ ind.Nodup) := by
  refine ⟨?_, ?_, ?_⟩
  · intro draw2 hdr
    unfold initialize_population
    rw [initLoop_congr (is_valid_combination dist mind) draw draw2 popSize
      (popSize * 10) 0 [] fun i h1 h2 => hdr i (by omega)]
  · intro std all_branches grand gens hnone
    unfold find_optimal_combination
    rw [hnone]
  · intro pop hsome
    unfold initialize_population at hsome
    by_cases hlt : (initLoop (is_valid_combination dist mind) draw popSize
        (popSize * 10) 0 []).length < popSize
    · rw [if_pos hlt] at hsome
      cases hsome
    · rw [if_neg hlt] at hsome
      injection hsome with hsome
      subst hsome
      have hle : (initLoop (is_valid_combination dist mind) draw popSize
          (popSize * 10) 0 []).length ≤ popSize :=
        initLoop_length_le _ _ _ _ _ _ (by simp)
      refine ⟨by omega, ?_⟩
      intro ind hind
      rcases initLoop_mem (is_valid_combination dist mind) draw popSize
          (popSize * 10) 0 [] ind hind with hcon | ⟨hv, i, rfl⟩
      · cases hcon
      · exact ⟨hv, (hdraw i).1, (hdraw i).2⟩

theorem C5_witness :
    (∀ i : ℕ, ((fun _ : ℕ => [bM1, bM2]) i).length = 2 ∧
      ((fun _ : ℕ => [bM1, bM2]) i).Nodup) ∧
    ((∀ draw2 : ℕ → List Branch, (∀ i, i < 1 * 10 →
        (fun _ : ℕ => [bM1, bM2]) i = draw2 i) →
      initialize_population (is_valid_combination dist0 5)
          (fun _ : ℕ => [bM1, bM2]) 1 =
        initialize_population (is_valid_combination dist0 5) draw2 1) ∧
    (∀ (std : List ℚ → ℚ) (all_branches : List Branch) (grand : ℕ → GenRand)
      (gens : ℕ),
      initialize_population (is_valid_combination dist0 5)
          (fun _ : ℕ => [bM1, bM2]) 1 = none →
      find_optimal_combination dist0 std 5 2 all_branches
        (fun _ : ℕ => [bM1, bM2]) grand 1 gens = some []) ∧
    (∀ pop,
      initialize_population (is_valid_combination dist0 5)
          (fun _ : ℕ => [bM1, bM2]) 1 = some pop →
      pop.length = 1 ∧ ∀ ind ∈ pop,
        is_valid_combination dist0 5 ind = true ∧
        ind.length = 2 ∧ ind.Nodup)) := by
  have hdraw : ∀ i : ℕ, ((fun _ : ℕ => [bM1, bM2]) i).length = 2 ∧
      ((fun _ : ℕ => [bM1, bM2]) i).Nodup := by
    intro i
    refine ⟨rfl, ?_⟩
    norm_num [bM1, bM2]
  exact ⟨hdraw, C5_initialize_population_spec dist0 5 _ 1 2 hdraw⟩

/-- C6: crossover of two valid parents with `k ≥ 2` distinct members drawn
from a pool with unique identifiers yields two children that each have
exactly `k` members with no repeated identifier and satisfy the
minimum-distance constraint; a child whose raw construction is invalid is
replaced by the corresponding original parent. -/
theorem C6_crossover_spec (dist : Branch → Branch → ℚ) (mind : ℚ)
    {k point : ℕ} {p q pool : List Branch} (hk : 2 ≤ k) (_hpt1 : 1 ≤ point)
    (hptk : point ≤ k - 1) (hp : p.length = k) (hq : q.length = k)
    (hnp : p.Nodup) (hnq : q.Nodup)
    (hvp : is_valid_combination dist mind p = true)
    (hvq : is_valid_combination dist mind q = true)
    (hsp : ∀ b ∈ p, b ∈ pool) (hsq : ∀ b ∈ q, b ∈ pool)
    (hid : (pool.map Branch.branch_id).Nodup) :
    ((crossover (is_valid_combination dist mind) k point p q).1.length = k ∧
      ((crossover (is_valid_combination dist mind) k point p q).1.map
        Branch.branch_id).Nodup ∧
      is_valid_combination dist mind
        (crossover (is_valid_combination dist mind) k point p q).1 = true) ∧
    ((crossover (is_valid_combination dist mind) k point p q).2.length = k ∧
      ((crossover (is_valid_combination dist mind) k point p q).2.map
        Branch.branch_id).Nodup ∧
      is_valid_combination dist mind
        (crossover (is_valid_combination dist mind) k point p q).2 = true) ∧
    (is_valid_combination dist mind
        (p.take point ++ q.filter fun b => !(decide (b ∈ p.take point))) =
        false →
      (crossover (is_valid_combination dist mind) k point p q).1 = p) ∧
    (is_valid_combination dist mind
        (q.take point ++ p.filter fun b => !(decide (b ∈ q.take point))) =
        false →
      (crossover (is_valid_combination dist mind) k point p q).2 = q) := by
  have hpt : point ≤ k := by omega
  obtain ⟨⟨h1, h2, h3, h4⟩, h5⟩ :=
    crossover_fst_spec dist mind hp hq hnp hnq hvp hpt
  obtain ⟨⟨g1, g2, g3, g4⟩, g5⟩ :=
    crossover_fst_spec dist mind hq hp hnq hnp hvq hpt
  rw [← crossover_snd_swap (is_valid_combination dist mind) k point p q] at g1 g2 g3 g4 g5
  refine ⟨⟨h1, ?_, h3⟩, ⟨g1, ?_, g3⟩, h5, g5⟩
  · exact nodup_map_of_mem_pool hid h2
      fun b hb => ((h4 b hb).elim (hsp b) (hsq b))
  · exact nodup_map_of_mem_pool hid g2
      fun b hb => ((g4 b hb).elim (hsq b) (hsp b))

theorem C6_witness :
    ((2:ℕ) ≤ 2 ∧ (1:ℕ) ≤ 1 ∧ (1:ℕ) ≤ 2 - 1 ∧
      ([bM1, bM2] : List Branch).length = 2 ∧
      ([bM3, bM4] : List Branch).length = 2 ∧
      ([bM1, bM2] : List Branch).Nodup ∧ ([bM3, bM4] : List Branch).Nodup ∧
      is_valid_combination dist0 5 [bM1, bM2] = true ∧
      is_valid_combination dist0 5 [bM3, bM4] = true ∧
      (([bM1, bM2, bM3, bM4].map Branch.branch_id).Nodup)) ∧
    (((crossover (is_valid_combination dist0 5) 2 1 [bM1, bM2]
        [bM3, bM4]).1.length = 2 ∧
      ((crossover (is_valid_combination dist0 5) 2 1 [bM1, bM2]
        [bM3, bM4]).1.map Branch.branch_id).Nodup ∧
      is_valid_combination dist0 5
        (crossover (is_valid_combination dist0 5) 2 1 [bM1, bM2]
          [bM3, bM4]).1 = true) ∧
    ((crossover (is_valid_combination dist0 5) 2 1 [bM1, bM2]
        [bM3, bM4]).2.length = 2 ∧
      ((crossover (is_valid_combination dist0 5) 2 1 [bM1, bM2]
        [bM3, bM4]).2.map Branch.branch_id).Nodup ∧
      is_valid_combination dist0 5
        (crossover (is_valid_combination dist0 5) 2 1 [bM1, bM2]
          [bM3, bM4]).2 = true) ∧
    (is_valid_combination dist0 5
        ([bM1, bM2].take 1 ++
          [bM3, bM4].filter fun b => !(decide (b ∈ [bM1, bM2].take 1))) =
        false →
      (crossover (is_valid_combination dist0 5) 2 1 [bM1, bM2]
        [bM3, bM4]).1 = [bM1, bM2]) ∧
    (is_valid_combination dist0 5
        ([bM3, bM4].take 1 ++
          [bM1, bM2].filter fun b => !(decide (b ∈ [bM3, bM4].take 1))) =
        false →
      (crossover (is_valid_combination dist0 5) 2 1 [bM1, bM2]
        [bM3, bM4]).2 = [bM3, bM4])) := by
  have e1 : (2:ℕ) ≤ 2 := le_rfl
  have e2 : (1:ℕ) ≤ 1 := le_rfl
  have e3 : (1:ℕ) ≤ 2 - 1 := le_rfl
  have e4 : ([bM1, bM2] : List Branch).length = 2 := rfl
  have e5 : ([bM3, bM4] : List Branch).length = 2 := rfl
  have e6 : ([bM1, bM2] : List Branch).Nodup := by norm_num [bM1, bM2]
  have e7 : ([bM3, bM4] : List Branch).Nodup := by norm_num [bM3, bM4]
  have e8 : is_valid_combination dist0 5 [bM1, bM2] = true := by
    norm_num [is_valid_combination, dist0, bM1, bM2]
  have e9 : is_valid_combination dist0 5 [bM3, bM4] = true := by
    norm_num [is_valid_combination, dist0, bM3, bM4]
  have e10 : (([bM1, bM2, bM3, bM4].map Branch.branch_id).Nodup) := by
    norm_num [bM1, bM2, bM3, bM4]
  exact ⟨⟨e1, e2, e3, e4, e5, e6, e7, e8, e9, e10⟩,
    C6_crossover_spec dist0 5 e1 e2 e3 e4 e5 e6 e7 e8 e9
      (fun b hb => by
        simp only [List.mem_cons] at hb ⊢
        tauto)
      (fun b hb => by
        simp only [List.mem_cons] at hb ⊢
        tauto) e10⟩

/-- C7 (amended): for an Individual of `k ≥ 1` distinct members and a pool
containing at least one candidate outside the Individual, `mutate` returns
either the unchanged Individual or a valid Individual that differs from it in
exactly one position, the replacement being a pool candidate not already
present, so the result still has `k` distinct members.  (When every pool
candidate is already a member, a fired mutation coin makes `random.choice`
raise on the empty replacement list — see the counterexample.) -/
theorem C7_mutate_spec (dist : Branch → Branch → ℚ) (mind : ℚ)
    (all_branches : List Branch) (coin : Bool) (idx0 : ℕ) (pick : ℕ → ℕ)
    (ind : List Branch) (k : ℕ) (hlen : ind.length = k) (hk : 1 ≤ k)
    (hnd : ind.Nodup) (hne : ∃ b ∈ all_branches, b ∉ ind) :
    ∃ res, mutate (is_valid_combination dist mind) all_branches coin idx0 pick
        ind = some res ∧
      (res = ind ∨
        (is_valid_combination dist mind res = true ∧
          ∃ j nb, j < k ∧ nb ∈ all_branches ∧ nb ∉ ind ∧
            res = ind.set j nb ∧ res.length = k ∧ res.Nodup)) := by
  rcases mutate_spec (is_valid_combination dist mind) all_branches coin idx0
      pick ind hne with ⟨res, hres, hcase⟩
  rcases hcase with rfl | ⟨hv, nb, hnb, hnbi, rfl⟩
  · exact ⟨_, hres, Or.inl rfl⟩
  · refine ⟨_, hres, Or.inr ⟨hv, idx0 % ind.length, nb, ?_, hnb, hnbi, rfl,
      by simpa using hlen, hnd.set hnbi⟩⟩
    have hpos : 0 < ind.length := by omega
    have := Nat.mod_lt idx0 hpos
    omega

theorem C7_witness :
    (([bM1, bM2] : List Branch).length = 2 ∧ (1:ℕ) ≤ 2 ∧
      ([bM1, bM2] : List Branch).Nodup ∧
      (∃ b ∈ [bM1, bM2, bM3], b ∉ ([bM1, bM2] : List Branch))) ∧
    (∃ res, mutate (is_valid_combination dist0 5) [bM1, bM2, bM3] true 0
        (fun _ => 0) [bM1, bM2] = some res ∧
      (res = [bM1, bM2] ∨
        (is_valid_combination dist0 5 res = true ∧
          ∃ j nb, j < 2 ∧ nb ∈ [bM1, bM2, bM3] ∧
            nb ∉ ([bM1, bM2] : List Branch) ∧
            res = [bM1, bM2].set j nb ∧ res.length = 2 ∧ res.Nodup))) := by
  have e1 : ([bM1, bM2] : List Branch).length = 2 := rfl
  have e2 : (1:ℕ) ≤ 2 := by norm_num
  have e3 : ([bM1, bM2] : List Branch).Nodup := by norm_num [bM1, bM2]
  have e4 : ∃ b ∈ [bM1, bM2, bM3], b ∉ ([bM1, bM2] : List Branch) := by
    refine ⟨bM3, by simp, ?_⟩
    norm_num [bM1, bM2, bM3]
  exact ⟨⟨e1, e2, e3, e4⟩,
    C7_mutate_spec dist0 5 [bM1, bM2, bM3] true 0 (fun _ => 0) [bM1, bM2] 2
      e1 e2 e3 e4⟩

theorem C7_counterexample :
    mutate (is_valid_combination dist0 5) [bM1, bM2] true 0 (fun _ => 0)
      [bM1, bM2] = none := by
  have hc : ([bM1, bM2].filter fun b =>
      !(decide (b ∈ ([bM1, bM2] : List Branch)))) = [] := by
    simp
  simp only [mutate, if_true, hc]
  rfl

/-- C9: one generational step of the driver — tournament selection, then
pairwise crossover, then mutation — maps a population of valid Individuals
of `k` distinct pool members (of even size, as the driver's `popSize = 100`)
to a population of the same size in which every Individual again has exactly
`k` distinct pool members and satisfies the minimum-distance constraint,
provided `k ≥ 2` and the (duplicate-free) pool has more than `k`
candidates. -/
theorem C9_gaStep_preserves_invariant (dist : Branch → Branch → ℚ)
    (std : List ℚ → ℚ) (mind : ℚ) (k : ℕ) (pool : List Branch) (r : GenRand)
    (pop : List (List Branch)) (hk : 2 ≤ k) (hpool : pool.Nodup)
    (hlt : k < pool.length) (heven : 2 ∣ pop.length)
    (hinv : ∀ ind ∈ pop, ind.length = k ∧ ind.Nodup ∧
      is_valid_combination dist mind ind = true ∧ ∀ b ∈ ind, b ∈ pool) :
    ∃ pop', gaStep dist std mind k pool r pop = some pop' ∧
      pop'.length = pop.length ∧
      ∀ ind ∈ pop', ind.length = k ∧ ind.Nodup ∧
        is_valid_combination dist mind ind = true ∧ ∀ b ∈ ind, b ∈ pool := by
  obtain ⟨hplen, hpmem⟩ := select_parents_spec pop
    (pop.map (evaluate_fitness dist std mind)) r.tsel
  have hdvd : 2 ∣ (select_parents pop
      (pop.map (evaluate_fitness dist std mind)) r.tsel).length := by
    rw [hplen]
    exact heven
  obtain ⟨out, hout, hlen, hoinv⟩ :=
    breedLoop_spec dist mind k pool r hk hpool hlt _ 0 hdvd
      fun q hq => hinv q (hpmem q hq)
  refine ⟨out, ?_, by rw [hlen, hplen], hoinv⟩
  simp only [gaStep]
  exact hout

theorem C9_witness :
    ((2:ℕ) ≤ 2 ∧ ([bM1, bM2, bM3, bM4] : List Branch).Nodup ∧
      2 < ([bM1, bM2, bM3, bM4] : List Branch).length ∧
      2 ∣ ([[bM1, bM2], [bM3, bM4]] : List (List Branch)).length ∧
      (∀ ind ∈ ([[bM1, bM2], [bM3, bM4]] : List (List Branch)),
        ind.length = 2 ∧ ind.Nodup ∧
        is_valid_combination dist0 5 ind = true ∧
        ∀ b ∈ ind, b ∈ [bM1, bM2, bM3, bM4])) ∧
    (∃ pop', gaStep dist0 std0 5 2 [bM1, bM2, bM3, bM4]
        ⟨fun _ => (0, 1, 0), fun _ => 0, fun _ => false, fun _ => 0,
          fun _ _ => 0⟩ [[bM1, bM2], [bM3, bM4]] = some pop' ∧
      pop'.length = ([[bM1, bM2], [bM3, bM4]] : List (List Branch)).length ∧
      ∀ ind ∈ pop', ind.length = 2 ∧ ind.Nodup ∧
        is_valid_combination dist0 5 ind = true ∧
        ∀ b ∈ ind, b ∈ [bM1, bM2, bM3, bM4]) := by
  have e1 : (2:ℕ) ≤ 2 := le_rfl
  have e2 : ([bM1, bM2, bM3, bM4] : List Branch).Nodup := by
    norm_num [bM1, bM2, bM3, bM4]
  have e3 : 2 < ([bM1, bM2, bM3, bM4] : List Branch).length := by norm_num
  have e4 : 2 ∣ ([[bM1, bM2], [bM3, bM4]] : List (List Branch)).length := by
    norm_num
  have e5 : ∀ ind ∈ ([[bM1, bM2], [bM3, bM4]] : List (List Branch)),
      ind.length = 2 ∧ ind.Nodup ∧
      is_valid_combination dist0 5 ind = true ∧
      ∀ b ∈ ind, b ∈ [bM1, bM2, bM3, bM4] := by
    intro ind hind
    rcases List.mem_cons.1 hind with rfl | hind
    · refine ⟨rfl, by norm_num [bM1, bM2], ?_, ?_⟩
      · norm_num [is_valid_combination, dist0, bM1, bM2]
      · intro b hb
        rcases List.mem_cons.1 hb with rfl | hb
        · simp
        · rcases List.mem_singleton.1 hb with rfl
          simp
    · rcases List.mem_singleton.1 hind with rfl
      refine ⟨rfl, by norm_num [bM3, bM4], ?_, ?_⟩
      · norm_num [is_valid_combination, dist0, bM3, bM4]
      · intro b hb
        rcases List.mem_cons.1 hb with rfl | hb
        · simp
        · rcases List.mem_singleton.1 hb with rfl
          simp
  exact ⟨⟨e1, e2, e3, e4, e5⟩,
    C9_gaStep_preserves_invariant dist0 std0 5 2 [bM1, bM2, bM3, bM4] _ _
      e1 e2 e3 e4 e5⟩

lemma initLoop_step_valid {valid : List Branch → Bool}
    {draw : ℕ → List Branch} {popSize fuel attempts : ℕ}
    {pop : List (List Branch)} (h1 : pop.length < popSize)
    (h2 : valid (draw attempts) = true) :
    initLoop valid draw popSize (fuel + 1) attempts pop =
      initLoop valid draw popSize fuel (attempts + 1) (pop ++ [draw attempts]) := by
  simp [initLoop, h1, h2]

lemma initLoop_stop {valid : List Branch → Bool} {draw : ℕ → List Branch}
    {popSize fuel attempts : ℕ} {pop : List (List Branch)}
    (h : ¬ pop.length < popSize) :
    initLoop valid draw popSize fuel attempts pop = pop := by
  cases fuel <;> simp [initLoop, h]

/-- The random streams used by the crashing run of C10: the first mutation
coin fires, everything else is the first possible outcome. -/
def gr10 : GenRand :=
  ⟨fun _ => (0, 1, 2), fun _ => 0, fun i => decide (i = 0), fun _ => 0,
    fun _ _ => 0⟩

/-- C10: with `k = 2` equal to the pool size and the full candidate set
satisfying the distance constraint, a fired mutation coin makes
`random.choice` raise `IndexError` on the empty replacement list
`[b for b in all_branches if b not in individual]`, aborting
`find_optimal_combination` (modelled by `none`) instead of completing and
returning the full set. -/
theorem C10_full_pool_mutation_crash :
    is_valid_combination dist0 5 [bM1, bM2] = true ∧
    find_optimal_combination dist0 std0 5 2 [bM1, bM2]
      (fun _ => [bM1, bM2]) (fun _ => gr10) 4 1 = none := by
  have hvalid : is_valid_combination dist0 5 [bM1, bM2] = true := by
    norm_num [is_valid_combination, dist0, bM1, bM2]
  refine ⟨hvalid, ?_⟩
  have hne12 : bM2 ≠ bM1 := by norm_num [bM1, bM2]
  have hinit : initialize_population (is_valid_combination dist0 5)
      (fun _ => [bM1, bM2]) 4 =
      some [[bM1, bM2], [bM1, bM2], [bM1, bM2], [bM1, bM2]] := by
    have h40 : (4 * 10 : ℕ) = 36 + 1 + 1 + 1 + 1 := by norm_num
    simp only [initialize_population, h40]
    rw [initLoop_step_valid (by norm_num) hvalid,
      initLoop_step_valid (by norm_num) hvalid,
      initLoop_step_valid (by norm_num) hvalid,
      initLoop_step_valid (by norm_num) hvalid,
      initLoop_stop (by norm_num)]
    norm_num
  obtain ⟨v, hv⟩ := evaluate_fitness_fin dist0 std0 5 hvalid (by simp)
    (by norm_num [bM1, bM2])
  have hsc : ([[bM1, bM2], [bM1, bM2], [bM1, bM2], [bM1, bM2]] :
      List (List Branch)).map (evaluate_fitness dist0 std0 5) =
      [PF.fin v, PF.fin v, PF.fin v, PF.fin v] := by
    simp [hv]
  have hwin : tournamentWinner [[bM1, bM2], [bM1, bM2], [bM1, bM2], [bM1, bM2]]
      [PF.fin v, PF.fin v, PF.fin v, PF.fin v] (0, 1, 2) = [bM1, bM2] := by
    simp [tournamentWinner, pfLtb, List.getD]
  have hsel : select_parents [[bM1, bM2], [bM1, bM2], [bM1, bM2], [bM1, bM2]]
      [PF.fin v, PF.fin v, PF.fin v, PF.fin v] gr10.tsel =
      [[bM1, bM2], [bM1, bM2], [bM1, bM2], [bM1, bM2]] := by
    have : gr10.tsel = fun _ => (0, 1, 2) := rfl
    simp [select_parents, this, hwin, List.range_succ]
  have hx : crossover (is_valid_combination dist0 5) 2 1 [bM1, bM2]
      [bM1, bM2] = ([bM1, bM2], [bM1, bM2]) := by
    simp only [crossover]
    norm_num [hne12, hvalid]
  have hmut1 : mutate (is_valid_combination dist0 5) [bM1, bM2] true 0
      (fun _ => 0) [bM1, bM2] = none := by
    have hc : ([bM1, bM2].filter fun b =>
        !(decide (b ∈ ([bM1, bM2] : List Branch)))) = [] := by
      simp
    simp only [mutate, if_true, hc]
    rfl
  have hbreed : breedLoop (is_valid_combination dist0 5) 2 [bM1, bM2] gr10 0
      [[bM1, bM2], [bM1, bM2], [bM1, bM2], [bM1, bM2]] = none := by
    have hpoint : 1 + gr10.cut 0 % (2 - 1) = 1 := rfl
    have hcoin : gr10.coin (2 * 0) = true := rfl
    simp only [breedLoop, hpoint, hcoin, hx]
    rw [show gr10.midx (2 * 0) = 0 from rfl, show gr10.mpick (2 * 0) = fun _ => 0 from rfl]
    rw [hmut1]
  have hstepn : gaStep dist0 std0 5 2 [bM1, bM2] gr10
      [[bM1, bM2], [bM1, bM2], [bM1, bM2], [bM1, bM2]] = none := by
    simp only [gaStep, hsc, hsel, hbreed]
  simp only [find_optimal_combination, hinit, gaRun, hstepn]

/-- C8 (amended): provided no evaluated Individual has `nan` fitness (which
zero-mean-income members would produce — see the counterexample) and every
evaluated population and Individual is nonempty, the Individual returned by a
completed run is one of the evaluated Individuals, its fitness is above the
sentinel and is greater than or equal to the fitness of every Individual
evaluated in any generation; and the empty failure result is returned exactly
when every evaluated fitness is the sentinel. -/
theorem C8_best_recorded_across_generations (dist : Branch → Branch → ℚ)
    (std : List ℚ → ℚ) (mind : ℚ) (k : ℕ) (all_branches : List Branch)
    (draw : ℕ → List Branch) (grand : ℕ → GenRand) (popSize gens : ℕ)
    (r : List Branch)
    (hr : find_optimal_combination dist std mind k all_branches draw grand
      popSize gens = some r)
    (htr1 : ∀ p' ∈ gaPopsRun dist std mind k all_branches draw grand popSize
      gens, p' ≠ [])
    (htr2 : ∀ p' ∈ gaPopsRun dist std mind k all_branches draw grand popSize
      gens, ∀ ind ∈ p', ind ≠ [])
    (htr3 : ∀ p' ∈ gaPopsRun dist std mind k all_branches draw grand popSize
      gens, ∀ ind ∈ p', evaluate_fitness dist std mind ind ≠ PF.nan) :
    (r = [] → ∀ p' ∈ gaPopsRun dist std mind k all_branches draw grand
      popSize gens, ∀ ind ∈ p',
      evaluate_fitness dist std mind ind = PF.neginf) ∧
    (r ≠ [] →
      (∃ p' ∈ gaPopsRun dist std mind k all_branches draw grand popSize gens,
        r ∈ p') ∧
      evaluate_fitness dist std mind r ≠ PF.neginf ∧
      ∀ p' ∈ gaPopsRun dist std mind k all_branches draw grand popSize gens,
        ∀ ind ∈ p', pfLtb (evaluate_fitness dist std mind r)
          (evaluate_fitness dist std mind ind) = false) := by
  unfold find_optimal_combination at hr
  unfold gaPopsRun at htr1 htr2 htr3 ⊢
  cases hini : initialize_population (is_valid_combination dist mind) draw
      popSize with
  | none =>
      rw [hini] at hr
      simp only at hr
      injection hr with hr
      subst hr
      simp only [hini]
      exact ⟨fun _ p' hp' => absurd hp' (List.not_mem_nil p'),
        fun hne => absurd rfl hne⟩
  | some pop =>
      rw [hini] at hr
      simp only [hini] at htr1 htr2 htr3 ⊢
      simp only at hr
      have heq : gaRun dist std mind k all_branches grand gens 0 pop
          (none, PF.neginf) =
          ((gaRun dist std mind k all_branches grand gens 0 pop
            (none, PF.neginf)).1, some r) := by
        rw [← hr]
      obtain ⟨c1, c2⟩ := gaRun_best_spec dist std mind k all_branches grand
        gens 0 pop none PF.neginf _ r heq htr1 htr2 htr3
        (by simp) (fun _ => rfl) (fun s0 h => by cases h)
      constructor
      · intro hre
        exact (c1 hre).2
      · intro hre
        obtain ⟨hprov, _, hneg, _, hdomi⟩ := c2 hre
        rcases hprov with hcon | hex
        · cases hcon
        · exact ⟨hex, hneg, hdomi⟩

/-- The random streams of the C8 runs: tournament slots `(0, 1, 0)`, no
mutation coin ever fires. -/
def gr8 : GenRand :=
  ⟨fun _ => (0, 1, 0), fun _ => 0, fun _ => false, fun _ => 0, fun _ _ => 0⟩

/-- The draw stream of the C8 counterexample run: the first accepted sample
is the zero-income pair, the rest are the well-behaved pair. -/
def draw8 : ℕ → List Branch := fun i => if i = 0 then [bZ1, bZ2] else [bM1, bM2]

lemma C8_run_eval :
    find_optimal_combination dist0 std0 5 2 [bM1, bM2, bM3]
      (fun _ => [bM1, bM2]) (fun _ => gr8) 2 1 = some [bM1, bM2] ∧
    gaPopsRun dist0 std0 5 2 [bM1, bM2, bM3] (fun _ => [bM1, bM2])
      (fun _ => gr8) 2 1 = [[[bM1, bM2], [bM1, bM2]]] := by
  have hvalid : is_valid_combination dist0 5 [bM1, bM2] = true := by
    norm_num [is_valid_combination, dist0, bM1, bM2]
  have hne12 : bM2 ≠ bM1 := by norm_num [bM1, bM2]
  obtain ⟨v, hv⟩ := evaluate_fitness_fin dist0 std0 5 hvalid (by simp)
    (by norm_num [bM1, bM2])
  have hinit : initialize_population (is_valid_combination dist0 5)
      (fun _ => [bM1, bM2]) 2 = some [[bM1, bM2], [bM1, bM2]] := by
    have h20 : (2 * 10 : ℕ) = 18 + 1 + 1 := by norm_num
    simp only [initialize_population, h20]
    rw [initLoop_step_valid (by norm_num) hvalid,
      initLoop_step_valid (by norm_num) hvalid,
      initLoop_stop (by norm_num)]
    norm_num
  have hsc : ([[bM1, bM2], [bM1, bM2]] : List (List Branch)).map
      (evaluate_fitness dist0 std0 5) = [PF.fin v, PF.fin v] := by
    simp [hv]
  have hargm : npArgmax [PF.fin v, PF.fin v] = 0 := by
    have h1 : ([PF.fin v, PF.fin v].findIdx? (· = PF.nan)) = none := rfl
    simp only [npArgmax, h1]
    simp [npArgmaxAux, pfLtb_irrefl]
  have hwin : tournamentWinner [[bM1, bM2], [bM1, bM2]]
      [PF.fin v, PF.fin v] (0, 1, 0) = [bM1, bM2] := by
    simp [tournamentWinner, pfLtb_irrefl, List.getD]
  have hsel : select_parents [[bM1, bM2], [bM1, bM2]] [PF.fin v, PF.fin v]
      gr8.tsel = [[bM1, bM2], [bM1, bM2]] := by
    have htl : gr8.tsel = fun _ => (0, 1, 0) := rfl
    simp [select_parents, htl, hwin, List.range_succ]
  have hx : crossover (is_valid_combination dist0 5) 2 1 [bM1, bM2]
      [bM1, bM2] = ([bM1, bM2], [bM1, bM2]) := by
    simp only [crossover]
    norm_num [hne12, hvalid]
  have hbreed : breedLoop (is_valid_combination dist0 5) 2 [bM1, bM2, bM3]
      gr8 0 [[bM1, bM2], [bM1, bM2]] = some [[bM1, bM2], [bM1, bM2]] := by
    simp [breedLoop, gr8, hx, mutate]
  have hstep : gaStep dist0 std0 5 2 [bM1, bM2, bM3] gr8
      [[bM1, bM2], [bM1, bM2]] = some [[bM1, bM2], [bM1, bM2]] := by
    simp only [gaStep, hsc, hsel, hbreed]
  have hrun : gaRun dist0 std0 5 2 [bM1, bM2, bM3] (fun _ => gr8) 1 0
      [[bM1, bM2], [bM1, bM2]] (none, PF.neginf) =
      ([[[bM1, bM2], [bM1, bM2]]], some [bM1, bM2]) := by
    simp only [gaRun, hsc, hargm]
    have hgd : ([PF.fin v, PF.fin v].getD 0 PF.nan) = PF.fin v := rfl
    have hlt : pfLtb PF.neginf (PF.fin v) = true := rfl
    simp only [hgd, hlt, if_true]
    rw [hstep]
    rfl
  constructor
  · simp only [find_optimal_combination, hinit, hrun]
  · simp only [gaPopsRun, hinit, hrun]

theorem C8_witness :
    (find_optimal_combination dist0 std0 5 2 [bM1, bM2, bM3]
        (fun _ => [bM1, bM2]) (fun _ => gr8) 2 1 = some [bM1, bM2] ∧
      (∀ p' ∈ gaPopsRun dist0 std0 5 2 [bM1, bM2, bM3] (fun _ => [bM1, bM2])
        (fun _ => gr8) 2 1, p' ≠ []) ∧
      (∀ p' ∈ gaPopsRun dist0 std0 5 2 [bM1, bM2, bM3] (fun _ => [bM1, bM2])
        (fun _ => gr8) 2 1, ∀ ind ∈ p', ind ≠ []) ∧
      (∀ p' ∈ gaPopsRun dist0 std0 5 2 [bM1, bM2, bM3] (fun _ => [bM1, bM2])
        (fun _ => gr8) 2 1, ∀ ind ∈ p',
        evaluate_fitness dist0 std0 5 ind ≠ PF.nan)) ∧
    (([bM1, bM2] = ([] : List Branch) → ∀ p' ∈ gaPopsRun dist0 std0 5 2
        [bM1, bM2, bM3] (fun _ => [bM1, bM2]) (fun _ => gr8) 2 1,
        ∀ ind ∈ p', evaluate_fitness dist0 std0 5 ind = PF.neginf) ∧
      ([bM1, bM2] ≠ ([] : List Branch) →
        (∃ p' ∈ gaPopsRun dist0 std0 5 2 [bM1, bM2, bM3]
          (fun _ => [bM1, bM2]) (fun _ => gr8) 2 1, [bM1, bM2] ∈ p') ∧
        evaluate_fitness dist0 std0 5 [bM1, bM2] ≠ PF.neginf ∧
        ∀ p' ∈ gaPopsRun dist0 std0 5 2 [bM1, bM2, bM3] (fun _ => [bM1, bM2])
          (fun _ => gr8) 2 1, ∀ ind ∈ p',
          pfLtb (evaluate_fitness dist0 std0 5 [bM1, bM2])
            (evaluate_fitness dist0 std0 5 ind) = false)) := by
  obtain ⟨hfind, hpops⟩ := C8_run_eval
  have hvalid : is_valid_combination dist0 5 [bM1, bM2] = true := by
    norm_num [is_valid_combination, dist0, bM1, bM2]
  obtain ⟨v, hv⟩ := evaluate_fitness_fin dist0 std0 5 hvalid (by simp)
    (by norm_num [bM1, bM2])
  have htr1 : ∀ p' ∈ gaPopsRun dist0 std0 5 2 [bM1, bM2, bM3]
      (fun _ => [bM1, bM2]) (fun _ => gr8) 2 1, p' ≠ [] := by
    rw [hpops]
    intro p' hp'
    rcases List.mem_singleton.1 hp' with rfl
    simp
  have htr2 : ∀ p' ∈ gaPopsRun dist0 std0 5 2 [bM1, bM2, bM3]
      (fun _ => [bM1, bM2]) (fun _ => gr8) 2 1, ∀ ind ∈ p', ind ≠ [] := by
    rw [hpops]
    intro p' hp' ind hind
    rcases List.mem_singleton.1 hp' with rfl
    rcases List.mem_cons.1 hind with rfl | hind
    · simp
    · rcases List.mem_singleton.1 hind with rfl
      simp
  have htr3 : ∀ p' ∈ gaPopsRun dist0 std0 5 2 [bM1, bM2, bM3]
      (fun _ => [bM1, bM2]) (fun _ => gr8) 2 1, ∀ ind ∈ p',
      evaluate_fitness dist0 std0 5 ind ≠ PF.nan := by
    rw [hpops]
    intro p' hp' ind hind
    rcases List.mem_singleton.1 hp' with rfl
    rcases List.mem_cons.1 hind with rfl | hind
    · rw [hv]
      simp
    · rcases List.mem_singleton.1 hind with rfl
      rw [hv]
      simp
  exact ⟨⟨hfind, htr1, htr2, htr3⟩,
    C8_best_recorded_across_generations dist0 std0 5 2 [bM1, bM2, bM3]
      (fun _ => [bM1, bM2]) (fun _ => gr8) 2 1 [bM1, bM2] hfind htr1 htr2 htr3⟩

theorem C8_counterexample :
    find_optimal_combination dist0 std0 5 2 [bM1, bM2, bZ1, bZ2] draw8
      (fun _ => gr8) 4 1 = some [] ∧
    gaPopsRun dist0 std0 5 2 [bM1, bM2, bZ1, bZ2] draw8 (fun _ => gr8) 4 1 =
      [[[bZ1, bZ2], [bM1, bM2], [bM1, bM2], [bM1, bM2]]] ∧
    ([bM1, bM2] : List Branch) ∈
      ([[bZ1, bZ2], [bM1, bM2], [bM1, bM2], [bM1, bM2]] :
        List (List Branch)) ∧
    pfLtb PF.neginf (evaluate_fitness dist0 std0 5 [bM1, bM2]) = true := by
  have hvalid : is_valid_combination dist0 5 [bM1, bM2] = true := by
    norm_num [is_valid_combination, dist0, bM1, bM2]
  have hvz : is_valid_combination dist0 5 [bZ1, bZ2] = true := by
    norm_num [is_valid_combination, dist0, bZ1, bZ2]
  have hneZ : bZ2 ≠ bZ1 := by norm_num [bZ1, bZ2]
  obtain ⟨v, hv⟩ := evaluate_fitness_fin dist0 std0 5 hvalid (by simp)
    (by norm_num [bM1, bM2])
  have hz : evaluate_fitness dist0 std0 5 [bZ1, bZ2] = PF.nan := by
    simp only [evaluate_fitness, hvz, if_true]
    norm_num [calculate_diversity_score, income_diversity, npMean, bZ1, bZ2,
      std0, pfDiv, pfSub, pfNeg, pfAdd, pfMul]
  have hinit : initialize_population (is_valid_combination dist0 5) draw8 4 =
      some [[bZ1, bZ2], [bM1, bM2], [bM1, bM2], [bM1, bM2]] := by
    have h40 : (4 * 10 : ℕ) = 36 + 1 + 1 + 1 + 1 := by norm_num
    simp only [initialize_population, h40]
    rw [initLoop_step_valid (by norm_num) (show is_valid_combination dist0 5
        (draw8 0) = true from hvz),
      initLoop_step_valid (by norm_num) (show is_valid_combination dist0 5
        (draw8 1) = true from hvalid),
      initLoop_step_valid (by norm_num) (show is_valid_combination dist0 5
        (draw8 2) = true from hvalid),
      initLoop_step_valid (by norm_num) (show is_valid_combination dist0 5
        (draw8 3) = true from hvalid),
      initLoop_stop (by norm_num)]
    norm_num [draw8]
  have hsc : ([[bZ1, bZ2], [bM1, bM2], [bM1, bM2], [bM1, bM2]] :
      List (List Branch)).map (evaluate_fitness dist0 std0 5) =
      [PF.nan, PF.fin v, PF.fin v, PF.fin v] := by
    simp [hz, hv]
  have hargm : npArgmax [PF.nan, PF.fin v, PF.fin v, PF.fin v] = 0 := rfl
  have hwin : tournamentWinner
      [[bZ1, bZ2], [bM1, bM2], [bM1, bM2], [bM1, bM2]]
      [PF.nan, PF.fin v, PF.fin v, PF.fin v] (0, 1, 0) = [bZ1, bZ2] := by
    simp [tournamentWinner, pfLtb, List.getD]
  have hsel : select_parents
      [[bZ1, bZ2], [bM1, bM2], [bM1, bM2], [bM1, bM2]]
      [PF.nan, PF.fin v, PF.fin v, PF.fin v] gr8.tsel =
      [[bZ1, bZ2], [bZ1, bZ2], [bZ1, bZ2], [bZ1, bZ2]] := by
    have htl : gr8.tsel = fun _ => (0, 1, 0) := rfl
    simp [select_parents, htl, hwin, List.range_succ]
  have hxz : crossover (is_valid_combination dist0 5) 2 1 [bZ1, bZ2]
      [bZ1, bZ2] = ([bZ1, bZ2], [bZ1, bZ2]) := by
    simp only [crossover]
    norm_num [hneZ, hvz]
  have hbreed : breedLoop (is_valid_combination dist0 5) 2
      [bM1, bM2, bZ1, bZ2] gr8 0
      [[bZ1, bZ2], [bZ1, bZ2], [bZ1, bZ2], [bZ1, bZ2]] =
      some [[bZ1, bZ2], [bZ1, bZ2], [bZ1, bZ2], [bZ1, bZ2]] := by
    simp [breedLoop, gr8, hxz, mutate]
  have hstep : gaStep dist0 std0 5 2 [bM1, bM2, bZ1, bZ2] gr8
      [[bZ1, bZ2], [bM1, bM2], [bM1, bM2], [bM1, bM2]] =
      some [[bZ1, bZ2], [bZ1, bZ2], [bZ1, bZ2], [bZ1, bZ2]] := by
    simp only [gaStep, hsc, hsel, hbreed]
  have hrun : gaRun dist0 std0 5 2 [bM1, bM2, bZ1, bZ2] (fun _ => gr8) 1 0
      [[bZ1, bZ2], [bM1, bM2], [bM1, bM2], [bM1, bM2]] (none, PF.neginf) =
      ([[[bZ1, bZ2], [bM1, bM2], [bM1, bM2], [bM1, bM2]]], some []) := by
    simp only [gaRun, hsc, hargm]
    have hgd : ([PF.nan, PF.fin v, PF.fin v, PF.fin v].getD 0 PF.nan) =
        PF.nan := rfl
    have hlt : pfLtb PF.neginf PF.nan = false := rfl
    simp only [hgd, hlt, Bool.false_eq_true, if_false]
    rw [hstep]
    rfl
  refine ⟨?_, ?_, by simp, ?_⟩
  · simp only [find_optimal_combination, hinit, hrun]
  · simp only [gaPopsRun, hinit, hrun]
  · rw [hv]
    rfl
